import Mathlib

/-
  Verification development for the InfiniLM-SVC repository
  (Registry / Babysitter / Router serving fabric, Rust sources).

  The Rust sources are shallowly embedded as pure Lean functions:
  * timer-driven tasks become explicit single-tick state transformers,
  * wall-clock time is an explicit parameter (integral seconds; source
    timestamps are `f64`s carrying integral second values, so `Int` is exact),
  * network I/O becomes oracle functions passed as arguments,
  * the `serde_json` metadata map is embedded as a structure holding the
    recognized keys that the sources actually read.
-/

namespace InfiniSVC

/-! ## Registry data model (src/rust/src/bin/registry.rs) -/

/-- Registry-side service record, embedding `ServiceInfo` of `bin/registry.rs`.
`lastHeartbeat` is seconds since the epoch; `metaType` is the value of the
recognized metadata key `"type"` (as read by `metadata.get("type").and_then(as_str)`). -/
structure ServiceInfo where
  name : String
  host : String
  port : Nat
  hostname : String
  url : String
  status : String
  lastHeartbeat : Int
  healthStatus : String
  metaType : Option String
  deriving DecidableEq

/-- Embedding of `ServiceInfo::is_healthy`: `status == "running"` and the
heartbeat is younger than 120 seconds at observation time `now`. -/
def ServiceInfo.is_healthy (s : ServiceInfo) (now : Int) : Bool :=
  if s.status ≠ "running" then false
  else now - s.lastHeartbeat < 120

/-- Embedding of `check_service_health` in `bin/registry.rs`: probe `url ++ "/health"`;
a 2xx response maps to `"healthy"`, any other status or a transport error (`none`)
maps to `"unhealthy"`. The probe oracle stands for the HTTP GET. -/
def check_service_health (probe : String → Option Nat) (url : String) : String :=
  match probe (url ++ "/health") with
  | some code => if 200 ≤ code ∧ code ≤ 299 then "healthy" else "unhealthy"
  | none => "unhealthy"

/-- Probe-URL choice of `perform_health_checks`: `type == "openai-api"` probes the
babysitter at `port + 1`; `type == "babysitter"` and every other type probe the
record's own `url`. -/
def health_check_url (s : ServiceInfo) : String :=
  if s.metaType = some "openai-api" then
    "http://" ++ s.host ++ ":" ++ toString (s.port + 1)
  else if s.metaType = some "babysitter" then
    s.url
  else
    s.url

/-- One tick of the Registry's periodic health prober (`perform_health_checks`):
every record's `health_status` is recomputed from a fresh probe; nothing else of
the record is touched and no record is removed. -/
def perform_health_checks (probe : String → Option Nat) (services : List ServiceInfo) :
    List ServiceInfo :=
  services.map (fun s => { s with healthStatus := check_service_health probe (health_check_url s) })

/-- Embedding of the probe-and-update part of `service_health_handler`
(`GET /services/{name}/health`): probe the effective URL, store the computed
`health_status`, and advance `last_heartbeat` to `now` exactly when healthy. -/
def service_health_update (probe : String → Option Nat) (now : Int) (s : ServiceInfo) :
    ServiceInfo :=
  let check_url :=
    if s.metaType = some "openai-api" then
      "http://" ++ s.host ++ ":" ++ toString (s.port + 1)
    else s.url
  let hs := check_service_health probe check_url
  let s1 := { s with healthStatus := hs }
  if hs = "healthy" then { s1 with lastHeartbeat := now } else s1

/-- One tick of `cleanup_stale_services`: collect the names whose heartbeat is
older than 300 seconds, then remove exactly those names from the directory. -/
def cleanup_stale_services (now : Int) (services : List ServiceInfo) : List ServiceInfo :=
  let staleNames := (services.filter (fun s => now - s.lastHeartbeat > 300)).map (fun s => s.name)
  services.filter (fun s => ¬ staleNames.contains s.name)

/-! ## Router data model (src/rust/src/router/service_instance.rs) -/

/-- Embedding of the `serde_json` metadata map restricted to the keys the sources
read: `"type"` (via `as_str`), `"models"` (via `as_array`, entries via `as_str`,
so each entry is `Option String`), `"static"` (via `as_bool`) and `"cache_type"`
(via `as_str`). An absent or wrongly-typed key is `none`. -/
structure Metadata where
  type : Option String
  models : Option (List (Option String))
  static : Option Bool
  cacheType : Option String
  deriving DecidableEq

/-- Router-side view of a worker, embedding `ServiceInstance` of
`router/service_instance.rs`. Counters and timing fields are behind `Arc<RwLock>`
in the source and are modelled as plain fields updated by explicit state
transformers. `last_seen` is seconds since the epoch; `response_time` is kept
as an integral value (it is never read by the verified claims). -/
structure ServiceInstance where
  name : String
  host : String
  port : Nat
  url : String
  babysitter_url : String
  healthy : Bool
  models : List String
  metadata : Metadata
  request_count : Nat
  error_count : Nat
  weight : Nat
  last_seen : Int
  last_check : Int
  response_time : Int
  deriving DecidableEq

/-- Embedding of `ServiceInstance::new`: derives `url` and `babysitter_url`
(`port + 1`), starts `healthy := true`, zero counters, models pulled out of the
metadata's `"models"` array (`filter_map(as_str)`), and `last_seen := now`
(the source calls `current_timestamp()`; time is passed explicitly here). -/
def ServiceInstance.new (name host : String) (port weight : Nat) (metadata : Metadata)
    (now : Int) : ServiceInstance :=
  { name := name
    host := host
    port := port
    url := "http://" ++ host ++ ":" ++ toString port
    babysitter_url := "http://" ++ host ++ ":" ++ toString (port + 1)
    healthy := true
    models := (metadata.models.getD []).filterMap id
    metadata := metadata
    request_count := 0
    error_count := 0
    weight := weight
    last_seen := now
    last_check := 0
    response_time := 0 }

/-- Static service entry of the router configuration (`config.rs`,
`StaticService`): `weight` defaults to 1 when absent in the JSON file. -/
structure StaticService where
  name : String
  host : String
  port : Nat
  weight : Nat
  metadata : Metadata
  deriving DecidableEq

/-- Keyed insertion into the pool, embedding `HashMap::insert` keyed by the
service name: an existing entry with the same name is replaced in place,
otherwise the entry is appended. -/
def insert_by_name (pool : List ServiceInstance) (s : ServiceInstance) :
    List ServiceInstance :=
  if pool.any (fun t => t.name = s.name) then
    pool.map (fun t => if t.name = s.name then s else t)
  else
    pool ++ [s]

/-- Embedding of the pool-seeding part of `LoadBalancer::new`: every configured
static service is constructed with `ServiceInstance::new` and inserted by name. -/
def load_balancer_new (static_services : List StaticService) (now : Int) :
    List ServiceInstance :=
  static_services.foldl
    (fun pool c => insert_by_name pool (ServiceInstance.new c.name c.host c.port c.weight c.metadata now))
    []

/-! ## Router selection (src/rust/src/router/load_balancer.rs, lines 138-206) -/

/-- Embedding of the accumulate-until-exceeds loop of the weighted selection
(lines 194-201): running weight starts at 0 and the first candidate whose
cumulative weight exceeds the target is returned. Written as the equivalent
subtraction recursion. -/
def select_weighted : List ServiceInstance → Nat → Option ServiceInstance
  | [], _ => none
  | s :: rest, t => if t < s.weight then some s else select_weighted rest (t - s.weight)

/-- Core of the weighted round-robin selection over an already-filtered
candidate list (lines 174-205 of `load_balancer.rs`): empty list yields no
choice and leaves the counter alone; zero total weight falls back to plain
round-robin by index; otherwise the target is `index % total_weight` and the
accumulation loop runs, with `candidates[0]` as the (unreachable) fallback.
Every successful selection bumps the shared counter by one. -/
def select_wrr (candidates : List ServiceInstance) (current_index : Nat) :
    Option ServiceInstance × Nat :=
  if candidates.isEmpty then (none, current_index)
  else
    let total_weight := (candidates.map (fun s => s.weight)).sum
    if total_weight = 0 then
      (candidates.get? (current_index % candidates.length), current_index + 1)
    else
      let target_weight := current_index % total_weight
      match select_weighted candidates target_weight with
      | some s => (some s, current_index + 1)
      | none => (candidates.get? 0, current_index + 1)

/-- Embedding of `LoadBalancer::get_next_healthy_service_by_model`: filter the
pool by health, then (when a model is requested) by model membership, then run
the weighted round-robin core. Both early-empty returns of the source leave the
counter untouched, exactly as `select_wrr` does on an empty candidate list.
The source's `increment_request_count` on the chosen instance is applied at the
call sites (see `lb_select_by_model`). -/
def get_next_healthy_service_by_model (services : List ServiceInstance)
    (current_index : Nat) (model_id : Option String) :
    Option ServiceInstance × Nat :=
  let healthy_services := services.filter (fun s => s.healthy)
  let candidates :=
    match model_id with
    | some m => healthy_services.filter (fun s => s.models.contains m)
    | none => healthy_services
  select_wrr candidates current_index

/-- Pool-plus-counter state of the load balancer: the `services` map (as an
ordered list of name-keyed entries) and the shared monotonic `current_index`. -/
structure PoolState where
  services : List ServiceInstance
  index : Nat
  deriving DecidableEq

/-- Embedding of `ServiceInstance::increment_request_count` on the pool: the
counter fields live behind shared `Arc`s keyed by the instance identity, so the
update is applied to the pool entry with the chosen name. -/
def bump_request (services : List ServiceInstance) (nm : String) : List ServiceInstance :=
  services.map (fun s => if s.name = nm then { s with request_count := s.request_count + 1 } else s)

/-- Embedding of the proxy's failure handling on an instance
(`increment_error_count` followed by `set_healthy(false)` in `proxy/handler.rs`). -/
def mark_failure (services : List ServiceInstance) (nm : String) : List ServiceInstance :=
  services.map (fun s =>
    if s.name = nm then { s with error_count := s.error_count + 1, healthy := false } else s)

/-- State-threaded form of `get_next_healthy_service_by_model`: the selection's
own `increment_request_count` of the chosen instance is applied to the pool. -/
def lb_select_by_model (st : PoolState) (model_id : Option String) :
    Option ServiceInstance × PoolState :=
  match get_next_healthy_service_by_model st.services st.index model_id with
  | (some s, idx1) => (some s, ⟨bump_request st.services s.name, idx1⟩)
  | (none, idx1) => (none, ⟨st.services, idx1⟩)

/-- A run of consecutive weighted round-robin selections with no other
operations interleaved: each call threads the pool state (shared counter and
request counters) into the next. -/
def run_selections (model_id : Option String) : PoolState → Nat → List (Option ServiceInstance)
  | _, 0 => []
  | st, n + 1 =>
    match lb_select_by_model st model_id with
    | (s, st1) => s :: run_selections model_id st1 n

/-! ## Spec-modelled pool selections used by the proxy

`proxy/handler.rs` calls `LoadBalancer::get_service_by_cache_type` and
`LoadBalancer::get_service_by_session`, but these two methods are not among the
provided sources (only their call sites are). They are modelled from the spec
below. -/

/-- The health, cache-type and model candidate filter of the cache-type tier. -/
def cache_type_filter (cache_type : String) (model_id : Option String)
    (s : ServiceInstance) : Bool :=
  s.healthy && s.metadata.cacheType = some cache_type &&
    (match model_id with
     | some m => s.models.contains m
     | none => true)

/-- Modelled from the spec: `LoadBalancer::get_service_by_cache_type` is missing
from the provided sources. Per §4.8/§4.9 it asks the pool for a healthy instance
matching the `cache_type` metadata and the model, selected by the same weighted
round-robin core over the single shared monotonic counter. -/
def get_service_by_cache_type (st : PoolState) (cache_type : String)
    (model_id : Option String) : Option ServiceInstance × PoolState :=
  match select_wrr (st.services.filter (cache_type_filter cache_type model_id)) st.index with
  | (some s, idx1) => (some s, ⟨st.services, idx1⟩)
  | (none, idx1) => (none, ⟨st.services, idx1⟩)

/-- Deterministic string hash standing for the session-key hash; the spec fixes
only that the key is hashed and reduced modulo the candidate-set size. -/
def string_hash (s : String) : Nat :=
  s.data.foldl (fun h c => h * 31 + c.toNat) 0

/-- The health-and-model candidate filter used by the session-affine
selection. -/
def session_filter (model_id : Option String) (s : ServiceInstance) : Bool :=
  s.healthy &&
    (match model_id with
     | some m => s.models.contains m
     | none => true)

/-- Modelled from the spec: `LoadBalancer::get_service_by_session` is missing
from the provided sources. Per §4.9, session affinity is a consistent mapping
from the session key to a candidate within the set filtered by health and
model: the key is hashed and reduced modulo the set size. -/
def get_service_by_session (services : List ServiceInstance) (session_key : String)
    (model_id : Option String) : Option ServiceInstance :=
  let candidates := services.filter (session_filter model_id)
  if candidates.isEmpty then none
  else candidates.get? (string_hash session_key % candidates.length)

/-! ## Routing-hint extraction (src/rust/src/proxy/handler.rs, lines 64-156) -/

/-- One part of an array-shaped message content (`ContentPart` of `handler.rs`):
both fields are optional and absent fields contribute length 0. -/
structure ContentPart where
  text : Option String
  content : Option String
  deriving DecidableEq

/-- Byte length contributed by one content part: `text.len() + content.len()`
with 0 for an absent field (Rust `str::len` is the UTF-8 byte length). -/
def ContentPart.text_len (p : ContentPart) : Nat :=
  (p.text.map String.utf8ByteSize).getD 0 + (p.content.map String.utf8ByteSize).getD 0

/-- A message `content` field: either a plain string or an array of parts
(the untagged `Content` enum of `handler.rs`). -/
inductive Content where
  | str (s : String)
  | parts (l : List ContentPart)
  deriving DecidableEq

/-- Embedding of `Content::text_len`. -/
def Content.text_len : Content → Nat
  | .str s => s.utf8ByteSize
  | .parts l => (l.map ContentPart.text_len).sum

/-- One element of `messages` (the `Message` struct of `handler.rs`). -/
structure Message where
  content : Option Content
  deriving DecidableEq

/-- A `prompt` field: plain string or array of strings (the untagged `Prompt`
enum of `handler.rs`). -/
inductive Prompt where
  | str (s : String)
  | arr (l : List String)
  deriving DecidableEq

/-- Embedding of `Prompt::text_len`. -/
def Prompt.text_len : Prompt → Nat
  | .str s => s.utf8ByteSize
  | .arr l => (l.map String.utf8ByteSize).sum

/-- The partially-decoded request body (`RoutingRequest` of `handler.rs`):
all four fields default to absent. A body that fails to parse as JSON yields no
`RoutingRequest` at all (the call site then carries `none`). -/
structure RoutingRequest where
  model : Option String
  prompt_cache_key : Option String
  messages : Option (List Message)
  prompt : Option Prompt
  deriving DecidableEq

/-- Routing-relevant fields extracted from a request body (`RoutingFields`). -/
structure RoutingFields where
  model_id : Option String
  prompt_cache_key : Option String
  message_size : Option Nat
  deriving DecidableEq

/-- Embedding of `extract_routing_fields` after the serde parse: `message_size`
is the summed content length over `messages` when that field is present, else
the prompt length when `prompt` is present, else unknown. -/
def extract_routing_fields (req : RoutingRequest) : RoutingFields :=
  let message_size :=
    match req.messages with
    | some messages => some ((messages.map (fun m => (m.content.map Content.text_len).getD 0)).sum)
    | none =>
      match req.prompt with
      | some prompt => some prompt.text_len
      | none => none
  { model_id := req.model
    prompt_cache_key := req.prompt_cache_key
    message_size := message_size }

/-- Default size-based routing threshold (`DEFAULT_CACHE_TYPE_ROUTING_THRESHOLD`). -/
def DEFAULT_CACHE_TYPE_ROUTING_THRESHOLD : Nat := 51200

/-- Embedding of `get_routing_threshold`: the `CACHE_TYPE_ROUTING_THRESHOLD`
environment variable when present and numeric, else the default. -/
def get_routing_threshold (env : Option String) : Nat :=
  (env.bind String.toNat?).getD DEFAULT_CACHE_TYPE_ROUTING_THRESHOLD

/-- The cache type the proxy's first (size-based) selection tier asks for,
embedding lines 223-233 of `proxy/handler.rs`: the tier runs whenever routing
fields were extracted at all, an unknown `message_size` is defaulted to 0
(`unwrap_or(0)`), and the requested type is `"static"` above the threshold and
`"paged"` otherwise. `none` means no routing fields, hence no size-based tier. -/
def requested_cache_type (routing_fields : Option RoutingFields) (threshold : Nat) :
    Option String :=
  routing_fields.map (fun rf =>
    if rf.message_size.getD 0 > threshold then "static" else "paged")

/-! ## Proxy selection pipeline and retry loop (src/rust/src/proxy/handler.rs) -/

/-- Embedding of the tiered target selection of `proxy_handler` (lines 221-343):
with routing fields, the size-based cache-type tier runs first, falling back to
the session tier (when a session id exists) and then to weighted round-robin;
without routing fields, the session tier runs when a session id exists and its
failure is final (no round-robin fallback), otherwise round-robin runs directly. -/
def select_service (st : PoolState) (routing_fields : Option RoutingFields)
    (session_id : Option String) (model_id : Option String) (threshold : Nat) :
    Option ServiceInstance × PoolState :=
  match routing_fields with
  | some rf =>
    let message_size := rf.message_size.getD 0
    let cache_type := if message_size > threshold then "static" else "paged"
    match get_service_by_cache_type st cache_type model_id with
    | (some s, st1) => (some s, st1)
    | (none, st1) =>
      match session_id with
      | some key =>
        match get_service_by_session st1.services key model_id with
        | some s => (some s, st1)
        | none => lb_select_by_model st1 model_id
      | none => lb_select_by_model st1 model_id
  | none =>
    match session_id with
    | some key =>
      match get_service_by_session st.services key model_id with
      | some s => (some s, st)
      | none => (none, st)
    | none => lb_select_by_model st model_id

/-- Transport-level failure kinds distinguished by the retry loop
(`reqwest::Error::is_timeout` / `is_connect` / anything else). -/
inductive TransportError where
  | timeout
  | connect
  | other
  deriving DecidableEq

/-- Outcome of one transport send attempt. -/
inductive SendResult where
  | ok
  | err (e : TransportError)
  deriving DecidableEq

/-- Status mapping of lines 418-430 of `proxy/handler.rs`: timeout to 504,
connection refused to 503, anything else to 502. -/
def map_transport_error : TransportError → Nat
  | .timeout => 504
  | .connect => 503
  | .other => 502

/-- Result of the whole retry loop. -/
inductive ProxyOutcome where
  | success (nm : String)
  | failed (e : TransportError)
  | noService
  | exhausted
  deriving DecidableEq

/-- HTTP status produced by a non-success outcome: the mapped transport error of
the last attempt, 503 for the no-healthy-service early return, and 503 for the
(unreachable) fall-through after the loop with no recorded error. -/
def proxy_status : ProxyOutcome → Option Nat
  | .success _ => none
  | .failed e => some (map_transport_error e)
  | .noService => some 503
  | .exhausted => some 503

/-- `max_retries` of `proxy_handler`. -/
def MAX_RETRIES : Nat := 3

/-- Embedding of the retry loop of `proxy_handler` (lines 221-540). `fuel` is
the number of attempts still allowed (`max_retries - attempt`); `send` is the
transport oracle, indexed by attempt number and target instance name. Each
iteration reselects a target from the current pool state; a failed send
increments the instance's `error_count` and marks it unhealthy before the next
iteration; the last allowed attempt's failure returns the mapped status; a
successful send increments the instance's `request_count` and ends the loop.
The returned list logs every transport send attempt in order. -/
def proxy_retry_loop (send : Nat → String → SendResult)
    (routing_fields : Option RoutingFields) (session_id : Option String)
    (model_id : Option String) (threshold : Nat) :
    PoolState → Nat → Nat → List (String × SendResult) × PoolState × ProxyOutcome
  | st, _, 0 => ([], st, .exhausted)
  | st, attempt, fuel + 1 =>
    match select_service st routing_fields session_id model_id threshold with
    | (none, st1) => ([], st1, .noService)
    | (some s, st1) =>
      match send attempt s.name with
      | .ok =>
        ([(s.name, .ok)], ⟨bump_request st1.services s.name, st1.index⟩, .success s.name)
      | .err e =>
        let services2 := mark_failure st1.services s.name
        if fuel = 0 then
          ([(s.name, .err e)], ⟨services2, st1.index⟩, .failed e)
        else
          let r := proxy_retry_loop send routing_fields session_id model_id threshold
            ⟨services2, st1.index⟩ (attempt + 1) fuel
          ((s.name, .err e) :: r.1, r.2)

/-- The proxy's attempt phase for one inbound request: the retry loop entered at
attempt 0 with `max_retries` attempts allowed. -/
def proxy_handler_attempts (send : Nat → String → SendResult)
    (routing_fields : Option RoutingFields) (session_id : Option String)
    (model_id : Option String) (threshold : Nat) (st : PoolState) :
    List (String × SendResult) × PoolState × ProxyOutcome :=
  proxy_retry_loop send routing_fields session_id model_id threshold st 0 MAX_RETRIES

/-! ## Registry sync (src/rust/src/router/load_balancer.rs, lines 264-414) -/

/-- A service row pulled from the Registry (`RegistryService` of
`registry/client.rs`); `weight` defaults to 1 when absent. -/
structure RegistryService where
  name : String
  host : String
  port : Nat
  url : String
  hostname : String
  status : String
  is_healthy : Bool
  weight : Nat
  metadata : Metadata
  deriving DecidableEq

/-- In-place refresh of an existing pool entry from a pulled row (the
update branch of `start_registry_sync`): `host`, `port`, `url`, health,
metadata, models and `last_seen` are refreshed and `babysitter_url` is
recomputed from the new host and `port + 1`; `weight` is not touched. Entries
with a different name are left alone. -/
def sync_update_entry (now : Int) (rs : RegistryService) (t : ServiceInstance) :
    ServiceInstance :=
  if t.name = rs.name then
    { t with
      host := rs.host
      port := rs.port
      url := rs.url
      healthy := rs.is_healthy
      metadata := rs.metadata
      last_seen := now
      models := (rs.metadata.models.getD []).filterMap id
      babysitter_url := "http://" ++ rs.host ++ ":" ++ toString (rs.port + 1) }
  else t

/-- Body of the update-or-add loop of `start_registry_sync` for one pulled row:
rows whose metadata `type` is not `"openai-api"` are skipped; an existing pool
entry with the same name is refreshed via `sync_update_entry`; an unknown name
is added via `ServiceInstance::new` with the pulled weight, models and health. -/
def sync_apply_record (now : Int) (pool : List ServiceInstance) (rs : RegistryService) :
    List ServiceInstance :=
  if rs.metadata.type ≠ some "openai-api" then pool
  else if pool.any (fun t => t.name = rs.name) then
    pool.map (sync_update_entry now rs)
  else
    let new_service := ServiceInstance.new rs.name rs.host rs.port rs.weight rs.metadata now
    pool ++ [{ new_service with
               models := (rs.metadata.models.getD []).filterMap id
               healthy := rs.is_healthy }]

/-- One tick of the Router's registry-sync task (`start_registry_sync`): a
failed pull (`none`) leaves the pool completely unchanged; a successful pull
applies the update-or-add loop, then collects the names that are absent from
the pull, not static, and whose `now - last_seen` is at least the grace
period, and removes exactly those names. -/
def sync_tick (pool : List ServiceInstance) (response : Option (List RegistryService))
    (now : Int) (grace_period : Nat) : List ServiceInstance :=
  match response with
  | none => pool
  | some regs =>
    let registry_service_names := regs.map (fun s => s.name)
    let pool1 := regs.foldl (sync_apply_record now) pool
    let services_to_remove :=
      (pool1.filter (fun s =>
        ¬ registry_service_names.contains s.name &&
        ¬ (s.metadata.static.getD false) &&
        now - s.last_seen ≥ (grace_period : Int))).map (fun s => s.name)
    pool1.filter (fun s => ¬ services_to_remove.contains s.name)

/-! ## Hop-by-hop header stripping (src/rust/src/proxy/handler.rs) -/

/-- The hop-by-hop header set (`HOP_BY_HOP_HEADERS`). -/
def HOP_BY_HOP_HEADERS : List String :=
  ["connection", "keep-alive", "proxy-authenticate", "proxy-authorization",
   "te", "trailers", "transfer-encoding", "upgrade", "host", "content-length"]

/-- An HTTP header: a (lower-case-insensitive) name and the raw bytes of its
value. -/
structure Header where
  name : String
  value : List Nat
  deriving DecidableEq

/-- ASCII lower-casing of a header name, embedding `str::to_lowercase` as used
on header names (which are ASCII by construction in the `http` crate). -/
def ascii_lower (s : String) : String :=
  String.mk (s.data.map Char.toLower)

/-- Embedding of `http::HeaderValue::to_str`: succeeds (returning the value's
bytes, which then form a valid string) exactly when every byte is visible
ASCII (32..=126) or horizontal tab. -/
def header_value_to_str (v : List Nat) : Option (List Nat) :=
  if v.all (fun b => b = 9 ∨ (32 ≤ b ∧ b ≤ 126)) then some v else none

/-- Request-direction header forwarding (lines 392-402 of `proxy/handler.rs`):
skip names in the hop-by-hop set (compared lower-cased); of the rest, forward
exactly the headers whose value converts with `to_str`, unchanged (the
conversion returns the value's own bytes). -/
def forward_request_headers : List Header → List Header
  | [] => []
  | h :: rest =>
    if HOP_BY_HOP_HEADERS.contains (ascii_lower h.name) then forward_request_headers rest
    else
      match header_value_to_str h.value with
      | some _ => h :: forward_request_headers rest
      | none => forward_request_headers rest

/-- Response-direction header forwarding (lines 450-464 of `proxy/handler.rs`,
the `filter_map` building `response_headers`): same hop-by-hop skip and the
same silent drop of values that fail `to_str`. -/
def forward_response_headers : List Header → List Header
  | [] => []
  | h :: rest =>
    if HOP_BY_HOP_HEADERS.contains (ascii_lower h.name) then forward_response_headers rest
    else
      match header_value_to_str h.value with
      | some _ => h :: forward_response_headers rest
      | none => forward_response_headers rest

/-! ## Babysitter readiness detection
(src/rust/src/babysitter/process_manager.rs, lines 308-391) -/

/-- An HTTP probe response indicates readiness when it is 2xx or 404
(`response.status().is_success() || response.status() == 404`). -/
def probe_indicates_ready : Option Nat → Bool
  | some code => (200 ≤ code && code ≤ 299) || code = 404
  | none => false

/-- Embedding of `check_service_ready`: a TCP connect must succeed, then the
two HTTP probes (`/v1/models` then `/models`) are tried in order and any hit
of 2xx or 404 means ready. -/
def check_service_ready (connect_ok : Bool) (v1_models_probe models_probe : Option Nat) :
    Bool :=
  connect_ok && (probe_indicates_ready v1_models_probe || probe_indicates_ready models_probe)

/-- The backoff interval (in milliseconds) before iteration `n + 1` of the
detection loop: starts at 100 ms and doubles, capped at 1 s
(`wait_interval = min(wait_interval * 2, 1000)`). -/
def wait_interval_at (n : Nat) : Nat := min (100 * 2 ^ n) 1000

/-- `max_wait` of `detect_service_port`, in milliseconds. -/
def MAX_WAIT_MS : Nat := 30000

/-- Embedding of the loop of `detect_service_port`. `ready n` is the outcome of
`check_service_ready` at iteration `n`; `extra_delay n` is the (nonnegative)
wall time the iteration's probes themselves consumed. The loop gives up as soon
as more than 30 s have elapsed, succeeds as soon as a probe says ready, and
otherwise sleeps the backoff interval and retries. Returns whether the service
was detected (rather than timed out) and the elapsed time at exit. -/
def detect_loop (ready : Nat → Bool) (extra_delay : Nat → Nat) (n : Nat) (elapsed : Nat) :
    Bool × Nat :=
  if MAX_WAIT_MS < elapsed then (false, elapsed)
  else if ready n then (true, elapsed)
  else detect_loop ready extra_delay (n + 1) (elapsed + (wait_interval_at n + extra_delay n))
termination_by MAX_WAIT_MS + 1 - elapsed
decreasing_by
  have h1 : 1 ≤ 2 ^ n := Nat.one_le_two_pow
  have h2 : 100 ≤ wait_interval_at n := by
    have h3 : 100 ≤ 100 * 2 ^ n := by
      calc 100 = 100 * 1 := by omega
      _ ≤ 100 * 2 ^ n := Nat.mul_le_mul_left 100 h1
    exact le_min h3 (by omega)
  simp only [MAX_WAIT_MS] at *
  omega

/-- Embedding of `detect_service_port`: after the fixed 100 ms warmup the loop
runs; on both exits (`detected` and timed-out) `service_port` is set to the
configured target port. Returns the port value written together with the
loop's exit information. -/
def detect_service_port (ready : Nat → Bool) (extra_delay : Nat → Nat)
    (target_port : Nat) : Nat × Bool × Nat :=
  (target_port, detect_loop ready extra_delay 0 100)

/-! ## Name-keyed accessors used by the theorems -/

/-- Look up a pool entry by name (the pool is a name-keyed map in the source). -/
def find_service (services : List ServiceInstance) (nm : String) : Option ServiceInstance :=
  services.find? (fun s => s.name = nm)

/-- The `healthy` flag of the named pool entry, when present. -/
def healthy_of (services : List ServiceInstance) (nm : String) : Option Bool :=
  (find_service services nm).map (fun s => s.healthy)

/-- The `error_count` of the named pool entry, when present. -/
def error_count_of (services : List ServiceInstance) (nm : String) : Option Nat :=
  (find_service services nm).map (fun s => s.error_count)

/-- The `request_count` of the named pool entry, when present. -/
def request_count_of (services : List ServiceInstance) (nm : String) : Option Nat :=
  (find_service services nm).map (fun s => s.request_count)

/-- Applies a sequence of weighted round-robin selections (with the given model
filters) to the pool state, threading the shared counter and the per-instance
request counters. -/
def apply_selections (st : PoolState) : List (Option String) → PoolState
  | [] => st
  | m :: ms => apply_selections (lb_select_by_model st m).2 ms

/-! ## Projections and index functions used by the selection theorems -/

/-- The fields of a pool entry that the session-affine selection reads:
name, health and served models. Request/error counters, the shared
round-robin index and timing fields are invisible to it. -/
def selection_view (s : ServiceInstance) : String × Bool × List String :=
  (s.name, s.healthy, s.models)

/-- The fields of a pool entry that the weighted round-robin selection reads:
name, health, served models and weight. -/
def wrr_view (s : ServiceInstance) : String × Bool × List String × Nat :=
  (s.name, s.healthy, s.models, s.weight)

/-- Position version of the weighted accumulation loop: the index of the
candidate whose cumulative weight first exceeds the target. -/
def sel_index : List Nat → Nat → Nat
  | [], _ => 0
  | w :: ws, t => if t < w then 0 else sel_index ws (t - w) + 1

/-! ## Concrete fixtures used by witnesses and counterexamples -/

/-- A concrete Registry record used to instantiate theorems. -/
def sampleRecord : ServiceInfo :=
  { name := "svc-a", host := "h", port := 9000, hostname := "h", url := "http://h:9000",
    status := "running", lastHeartbeat := 0, healthStatus := "unknown",
    metaType := some "openai-api" }

/-- Empty metadata map (no recognized keys present). -/
def emptyMetadata : Metadata :=
  { type := none, models := none, static := none, cacheType := none }

/-- A concrete static-service configuration used to instantiate theorems. -/
def sampleStatic : StaticService :=
  { name := "a", host := "h", port := 8000, weight := 1,
    metadata := { type := none, models := some [some "m1"], static := some true,
                  cacheType := none } }

/-- A concrete pool instance used to instantiate theorems. -/
def sampleInstance (nm : String) (w : Nat) : ServiceInstance :=
  { name := nm, host := "h", port := 9000, url := "http://h:9000",
    babysitter_url := "http://h:9001", healthy := true, models := ["m1"],
    metadata := emptyMetadata, request_count := 0, error_count := 0,
    weight := w, last_seen := 0, last_check := 0, response_time := 0 }

/-! ## Theorems -/

/-- C5: a Registry record is reported healthy iff its status is `"running"` and
its heartbeat is younger than 120 s; the cleanup task removes it iff the
heartbeat age exceeds 300 s; and a record with age between 120 s and 300 s is
still present but reported unhealthy. -/
theorem registry_health_and_eviction_thresholds
    (services : List ServiceInfo) (r : ServiceInfo) (now : Int)
    (hmem : r ∈ services)
    (hnodup : (services.map (fun s => s.name)).Nodup) :
    (r.is_healthy now = true ↔ (r.status = "running" ∧ now - r.lastHeartbeat < 120)) ∧
    (r ∉ cleanup_stale_services now services ↔ now - r.lastHeartbeat > 300) ∧
    (120 ≤ now - r.lastHeartbeat → now - r.lastHeartbeat ≤ 300 →
      (r ∈ cleanup_stale_services now services ∧ r.is_healthy now = false)) := by
  have hinj : ∀ x ∈ services, ∀ y ∈ services, x.name = y.name → x = y :=
    List.inj_on_of_nodup_map hnodup
  have hhealthy : r.is_healthy now = true ↔
      (r.status = "running" ∧ now - r.lastHeartbeat < 120) := by
    unfold ServiceInfo.is_healthy
    by_cases h : r.status = "running" <;> simp [h]
  have hmemclean : r ∈ cleanup_stale_services now services ↔
      ¬ (now - r.lastHeartbeat > 300) := by
    unfold cleanup_stale_services
    simp only [List.mem_filter, decide_eq_true_eq, List.contains_iff_exists_mem_beq,
      List.mem_map, List.mem_filter, beq_iff_eq]
    constructor
    · rintro ⟨-, hno⟩ hgt
      exact hno ⟨r.name, ⟨r, ⟨hmem, by simpa using hgt⟩, rfl⟩, rfl⟩
    · intro hle
      refine ⟨hmem, ?_⟩
      rintro ⟨nm, ⟨s, ⟨hs, hstale⟩, rfl⟩, hname⟩
      have : s = r := hinj s hs r hmem hname.symm
      subst this
      exact hle (by simpa using hstale)
  refine ⟨hhealthy, ?_, ?_⟩
  · constructor
    · intro hnotin
      by_contra hle
      exact hnotin (hmemclean.mpr hle)
    · intro hgt hin
      exact (hmemclean.mp hin) hgt
  · intro h120 h300
    refine ⟨hmemclean.mpr (by omega), ?_⟩
    rcases Bool.eq_false_or_eq_true (r.is_healthy now) with hb | hb
    · exact absurd ((hhealthy.mp hb).2) (by omega)
    · exact hb

/-- Witness for C5: a running record with heartbeat age 200 s is reported
unhealthy yet survives the cleanup tick. -/
theorem registry_health_and_eviction_thresholds_witness :
    (sampleRecord ∈ [sampleRecord] ∧ ([sampleRecord].map (fun s => s.name)).Nodup) ∧
    ((sampleRecord.is_healthy 200 = true ↔
        (sampleRecord.status = "running" ∧ 200 - sampleRecord.lastHeartbeat < 120)) ∧
      (sampleRecord ∉ cleanup_stale_services 200 [sampleRecord] ↔
        200 - sampleRecord.lastHeartbeat > 300) ∧
      (120 ≤ 200 - sampleRecord.lastHeartbeat → 200 - sampleRecord.lastHeartbeat ≤ 300 →
        (sampleRecord ∈ cleanup_stale_services 200 [sampleRecord] ∧
          sampleRecord.is_healthy 200 = false))) :=
  ⟨⟨by simp, by simp⟩,
    registry_health_and_eviction_thresholds [sampleRecord] sampleRecord 200
      (by simp) (by simp)⟩

/-- C2 counterexample: the periodic prober, on a 2xx probe at current time 100,
sets the record's `health_status` to `"healthy"` but leaves `last_heartbeat`
at its old value 0 instead of setting it to the current time, refuting the
claim's `last_heartbeat := now` for the periodic prober. -/
theorem prober_tick_leaves_heartbeat_counterexample :
    (perform_health_checks (fun _ => some 200) [sampleRecord]).map (fun s => s.healthStatus)
        = ["healthy"] ∧
    (perform_health_checks (fun _ => some 200) [sampleRecord]).map (fun s => s.lastHeartbeat)
        = [0] ∧
    ¬ ((0 : Int) = 100) := by
  refine ⟨?_, ?_, by decide⟩ <;> rfl

/-- C2 (amended): on a periodic prober tick, a 2xx probe response sets the
record's `health_status` to `"healthy"` and any other outcome (non-2xx,
timeout, connection error) sets it to `"unhealthy"`; the prober never removes
a record and never modifies `last_heartbeat` — only the on-demand
`/services/{name}/health` probe advances `last_heartbeat` (to `now`, exactly
when the probe was healthy). -/
theorem prober_tick_updates_health_only
    (services : List ServiceInfo) (probe : String → Option Nat) (now : Int)
    (r : ServiceInfo) (hmem : r ∈ services) :
    (perform_health_checks probe services).length = services.length ∧
    ({ r with healthStatus := check_service_health probe (health_check_url r) }
        ∈ perform_health_checks probe services) ∧
    (∀ code, probe (health_check_url r ++ "/health") = some code →
      200 ≤ code → code ≤ 299 →
      check_service_health probe (health_check_url r) = "healthy") ∧
    (∀ code, probe (health_check_url r ++ "/health") = some code →
      ¬ (200 ≤ code ∧ code ≤ 299) →
      check_service_health probe (health_check_url r) = "unhealthy") ∧
    (probe (health_check_url r ++ "/health") = none →
      check_service_health probe (health_check_url r) = "unhealthy") ∧
    (∀ s1, s1 ∈ perform_health_checks probe services →
      ∃ s0, s0 ∈ services ∧ s1.name = s0.name ∧ s1.lastHeartbeat = s0.lastHeartbeat) ∧
    ((service_health_update probe now r).lastHeartbeat =
      if check_service_health probe
          (if r.metaType = some "openai-api" then
            "http://" ++ r.host ++ ":" ++ toString (r.port + 1)
          else r.url) = "healthy"
      then now else r.lastHeartbeat) := by
  refine ⟨?_, ?_, ?_, ?_, ?_, ?_, ?_⟩
  · simp [perform_health_checks]
  · exact List.mem_map_of_mem _ hmem
  · intro code hcode h1 h2
    unfold check_service_health
    rw [hcode]
    simp [h1, h2]
  · intro code hcode hno
    unfold check_service_health
    rw [hcode]
    simp only [ite_eq_right_iff]
    intro hyes
    exact absurd hyes hno
  · intro hnone
    unfold check_service_health
    rw [hnone]
  · intro s1 hs1
    rcases List.mem_map.mp hs1 with ⟨s0, hs0, rfl⟩
    exact ⟨s0, hs0, rfl, rfl⟩
  · unfold service_health_update
    by_cases h : check_service_health probe
        (if r.metaType = some "openai-api" then
          "http://" ++ r.host ++ ":" ++ toString (r.port + 1)
        else r.url) = "healthy" <;> simp [h]

/-- Witness for C2's amended theorem at a concrete record and pool. -/
theorem prober_tick_updates_health_only_witness :
    (sampleRecord ∈ [sampleRecord]) ∧
    ((perform_health_checks (fun _ => none) [sampleRecord]).length = [sampleRecord].length ∧
      ({ sampleRecord with
          healthStatus := check_service_health (fun _ => none) (health_check_url sampleRecord) }
          ∈ perform_health_checks (fun _ => none) [sampleRecord]) ∧
      (∀ code, (fun _ => (none : Option Nat)) (health_check_url sampleRecord ++ "/health") = some code →
        200 ≤ code → code ≤ 299 →
        check_service_health (fun _ => none) (health_check_url sampleRecord) = "healthy") ∧
      (∀ code, (fun _ => (none : Option Nat)) (health_check_url sampleRecord ++ "/health") = some code →
        ¬ (200 ≤ code ∧ code ≤ 299) →
        check_service_health (fun _ => none) (health_check_url sampleRecord) = "unhealthy") ∧
      ((fun _ => (none : Option Nat)) (health_check_url sampleRecord ++ "/health") = none →
        check_service_health (fun _ => none) (health_check_url sampleRecord) = "unhealthy") ∧
      (∀ s1, s1 ∈ perform_health_checks (fun _ => none) [sampleRecord] →
        ∃ s0, s0 ∈ [sampleRecord] ∧ s1.name = s0.name ∧ s1.lastHeartbeat = s0.lastHeartbeat) ∧
      ((service_health_update (fun _ => none) 100 sampleRecord).lastHeartbeat =
        if check_service_health (fun _ => none)
            (if sampleRecord.metaType = some "openai-api" then
              "http://" ++ sampleRecord.host ++ ":" ++ toString (sampleRecord.port + 1)
            else sampleRecord.url) = "healthy"
        then 100 else sampleRecord.lastHeartbeat)) :=
  ⟨by simp,
    prober_tick_updates_health_only [sampleRecord] (fun _ => none) 100 sampleRecord (by simp)⟩

/-- The weighted accumulation loop only ever returns a member of its input. -/
theorem select_weighted_mem {l : List ServiceInstance} {t : Nat} {s : ServiceInstance}
    (h : select_weighted l t = some s) : s ∈ l := by
  induction l generalizing t with
  | nil => simp [select_weighted] at h
  | cons a rest ih =>
    unfold select_weighted at h
    split at h
    · cases h; exact List.mem_cons_self _ _
    · exact List.mem_cons_of_mem a (ih h)

/-- The weighted accumulation loop finds a candidate whenever the target is
below the total weight. -/
theorem select_weighted_isSome {l : List ServiceInstance} {t : Nat}
    (h : t < (l.map (fun s => s.weight)).sum) : (select_weighted l t).isSome := by
  induction l generalizing t with
  | nil => simp at h
  | cons a rest ih =>
    unfold select_weighted
    split
    · rfl
    · next hlt =>
      apply ih
      simp only [List.map_cons, List.sum_cons] at h
      omega

/-- The weighted round-robin core always chooses some candidate from a
non-empty candidate list. -/
theorem select_wrr_fst_isSome {cands : List ServiceInstance} {idx : Nat}
    (h : cands ≠ []) : (select_wrr cands idx).1.isSome := by
  unfold select_wrr
  have hlen : 0 < cands.length := List.length_pos.mpr h
  rw [if_neg (by simpa [List.isEmpty_iff] using h)]
  by_cases hw : (cands.map (fun s => s.weight)).sum = 0
  · rw [if_pos hw]
    simp only
    rw [List.get?_eq_get (Nat.mod_lt _ hlen)]
    rfl
  · rw [if_neg hw]
    simp only
    have ht : idx % (cands.map (fun s => s.weight)).sum <
        (cands.map (fun s => s.weight)).sum := Nat.mod_lt _ (Nat.pos_of_ne_zero hw)
    rcases Option.isSome_iff_exists.mp (select_weighted_isSome ht) with ⟨s, hs⟩
    rw [hs]
    rfl

/-- The weighted round-robin core only ever chooses a member of its candidate
list. -/
theorem select_wrr_fst_mem {cands : List ServiceInstance} {idx : Nat} {s : ServiceInstance}
    (h : (select_wrr cands idx).1 = some s) : s ∈ cands := by
  simp only [select_wrr] at h
  split at h
  · simp at h
  · split at h
    · exact List.get?_mem h
    · split at h
      · next s2 hs2 =>
        cases h
        exact select_weighted_mem hs2
      · exact List.get?_mem h

/-- C10: every `ServiceInstance` is constructed with `healthy = true`; hence
every instance of the freshly seeded pool (in particular a static instance
loaded at startup) is healthy, and such an instance makes the proxy's
round-robin selection succeed for any model it serves, before any health
check or registry sync has run. -/
theorem instances_constructed_healthy (static_services : List StaticService) (now : Int) :
    (∀ nm host port w md, (ServiceInstance.new nm host port w md now).healthy = true) ∧
    (∀ s ∈ load_balancer_new static_services now, s.healthy = true) ∧
    (∀ m idx s, s ∈ load_balancer_new static_services now → m ∈ s.models →
      (get_next_healthy_service_by_model (load_balancer_new static_services now)
        idx (some m)).1 ≠ none) := by
  have hstep : ∀ (cfgs : List StaticService) (acc : List ServiceInstance),
      (∀ x ∈ acc, x.healthy = true) →
      ∀ x ∈ cfgs.foldl
        (fun pool c =>
          insert_by_name pool (ServiceInstance.new c.name c.host c.port c.weight c.metadata now))
        acc, x.healthy = true := by
    intro cfgs
    induction cfgs with
    | nil => intro acc hacc x hx; exact hacc x hx
    | cons c rest ih =>
      intro acc hacc x hx
      refine ih _ ?_ x hx
      intro y hy
      simp only [insert_by_name] at hy
      split at hy
      · rcases List.mem_map.mp hy with ⟨t, ht, rfl⟩
        split
        · rfl
        · exact hacc t ht
      · rcases List.mem_append.mp hy with hy1 | hy1
        · exact hacc y hy1
        · rcases List.mem_singleton.mp hy1 with rfl
          rfl
  have hall : ∀ s ∈ load_balancer_new static_services now, s.healthy = true := by
    intro s hs
    exact hstep static_services [] (by simp) s hs
  refine ⟨fun _ _ _ _ _ => rfl, hall, ?_⟩
  intro m idx s hs hm
  unfold get_next_healthy_service_by_model
  have h1 : s ∈ (load_balancer_new static_services now).filter (fun s => s.healthy) :=
    List.mem_filter.mpr ⟨hs, hall s hs⟩
  have h2 : s ∈ ((load_balancer_new static_services now).filter
      (fun s => s.healthy)).filter (fun s => s.models.contains m) := by
    refine List.mem_filter.mpr ⟨h1, ?_⟩
    simp only [List.contains_iff_exists_mem_beq, beq_iff_eq]
    exact ⟨m, hm, rfl⟩
  have h3 := @select_wrr_fst_isSome _ idx (List.ne_nil_of_mem h2)
  intro heq
  simp only at heq
  rw [heq] at h3
  simp at h3

/-- Witness for C10: one static instance serving `"m1"` with nothing having
probed it yet is selectable. -/
theorem instances_constructed_healthy_witness :
    ((ServiceInstance.new "a" "h" 8000 1 sampleStatic.metadata 0
        ∈ load_balancer_new [sampleStatic] 0) ∧
      "m1" ∈ (ServiceInstance.new "a" "h" 8000 1 sampleStatic.metadata 0).models) ∧
    (get_next_healthy_service_by_model (load_balancer_new [sampleStatic] 0)
      0 (some "m1")).1 ≠ none :=
  ⟨⟨by simp [load_balancer_new, insert_by_name, sampleStatic],
      by simp [ServiceInstance.new, sampleStatic]⟩,
    (instances_constructed_healthy [sampleStatic] 0).2.2 "m1" 0
      (ServiceInstance.new "a" "h" 8000 1 sampleStatic.metadata 0)
      (by simp [load_balancer_new, insert_by_name, sampleStatic])
      (by simp [ServiceInstance.new, sampleStatic])⟩

/-- C6 counterexample: a POST body that parses as JSON but contains neither
`messages` nor `prompt` has an unknown `message_size`, yet the size-based tier
is still used — the missing size is defaulted to 0 and `"paged"` is requested —
refuting the claim that the size-based tier is not used when `message_size`
is unknown. -/
theorem size_tier_runs_on_unknown_size_counterexample :
    (extract_routing_fields
        { model := none, prompt_cache_key := none, messages := none, prompt := none
        }).message_size = none ∧
    requested_cache_type
        (some (extract_routing_fields
          { model := none, prompt_cache_key := none, messages := none, prompt := none }))
        (get_routing_threshold none) = some "paged" := by
  constructor <;> rfl

/-- C6 (amended): whenever routing fields were extracted from a POST body, the
proxy's first selection tier asks for cache type `"static"` when the (known)
`message_size` exceeds the threshold and `"paged"` otherwise; an unknown
`message_size` is treated as 0, so the tier still runs and asks for `"paged"`;
the tier is skipped only when no routing fields exist (non-POST or unparseable
body). The threshold defaults to 51200 bytes and is overridable through the
`CACHE_TYPE_ROUTING_THRESHOLD` environment variable; `message_size` is the
summed text length over `messages[*].content`, else over `prompt`. -/
theorem size_based_cache_type_routing
    (req : RoutingRequest) (threshold : Nat) (envVar : Option String) :
    (∀ n, (extract_routing_fields req).message_size = some n →
      requested_cache_type (some (extract_routing_fields req)) threshold =
        some (if n > threshold then "static" else "paged")) ∧
    ((extract_routing_fields req).message_size = none →
      requested_cache_type (some (extract_routing_fields req)) threshold = some "paged") ∧
    requested_cache_type none threshold = none ∧
    get_routing_threshold none = 51200 ∧
    (envVar.bind String.toNat? = none → get_routing_threshold envVar = 51200) ∧
    (∀ k, envVar.bind String.toNat? = some k → get_routing_threshold envVar = k) ∧
    (∀ msgs, req.messages = some msgs →
      (extract_routing_fields req).message_size =
        some ((msgs.map (fun m => (m.content.map Content.text_len).getD 0)).sum)) ∧
    (∀ p, req.messages = none → req.prompt = some p →
      (extract_routing_fields req).message_size = some p.text_len) := by
  refine ⟨?_, ?_, rfl, rfl, ?_, ?_, ?_, ?_⟩
  · intro n hn
    simp [requested_cache_type, hn]
  · intro hn
    simp [requested_cache_type, hn]
  · intro hnone
    simp [get_routing_threshold, hnone, DEFAULT_CACHE_TYPE_ROUTING_THRESHOLD]
  · intro k hk
    simp [get_routing_threshold, hk]
  · intro msgs hmsgs
    simp [extract_routing_fields, hmsgs]
  · intro p hmsgs hp
    simp [extract_routing_fields, hmsgs, hp]

/-- Witness for C6's amended theorem: a 5-byte prompt against a threshold of 3
is routed `"static"`, evaluated at a concrete request. -/
theorem size_based_cache_type_routing_witness :
    (extract_routing_fields
        { model := none, prompt_cache_key := none, messages := none,
          prompt := some (.str "hello") }).message_size = some 5 ∧
    requested_cache_type
      (some (extract_routing_fields
        { model := none, prompt_cache_key := none, messages := none,
          prompt := some (.str "hello") }))
      3 = some (if 5 > 3 then "static" else "paged") :=
  ⟨rfl,
    (size_based_cache_type_routing
      { model := none, prompt_cache_key := none, messages := none,
        prompt := some (.str "hello") }
      3 none).1 5 rfl⟩

/-- C8 counterexample: the header `x-custom` is not in the hop-by-hop set, yet
it is dropped in both directions because its value byte 200 is not visible
ASCII (`to_str` fails and the source silently skips the header), refuting the
claim that exactly the hop-by-hop set is removed. -/
theorem non_ascii_header_dropped_counterexample :
    HOP_BY_HOP_HEADERS.contains (ascii_lower "x-custom") = false ∧
    forward_request_headers [{ name := "x-custom", value := [200] }] = [] ∧
    forward_response_headers [{ name := "x-custom", value := [200] }] = [] := by
  refine ⟨?_, ?_, ?_⟩ <;> decide

/-- When every value byte is visible ASCII or tab, `to_str` succeeds with the
same bytes. -/
theorem header_value_to_str_of_valid {v : List Nat}
    (hv : (v.all fun b => decide (b = 9 ∨ 32 ≤ b ∧ b ≤ 126)) = true) :
    header_value_to_str v = some v := by
  unfold header_value_to_str
  rw [if_pos hv]

/-- When some value byte is not visible ASCII nor tab, `to_str` fails. -/
theorem header_value_to_str_of_invalid {v : List Nat}
    (hv : ¬ (v.all fun b => decide (b = 9 ∨ 32 ≤ b ∧ b ≤ 126)) = true) :
    header_value_to_str v = none := by
  unfold header_value_to_str
  rw [if_neg hv]

/-- The request-direction forwarding keeps exactly the headers outside the
hop-by-hop set whose value bytes are visible ASCII or tab, unchanged and in
order. -/
theorem forward_request_headers_eq_filter (hs : List Header) :
    forward_request_headers hs = hs.filter (fun h =>
      !(HOP_BY_HOP_HEADERS.contains (ascii_lower h.name)) &&
      h.value.all (fun b => b = 9 ∨ (32 ≤ b ∧ b ≤ 126))) := by
  induction hs with
  | nil => rfl
  | cons h rest ih =>
    rw [List.filter_cons]
    by_cases hop : HOP_BY_HOP_HEADERS.contains (ascii_lower h.name) = true
    · have hmem : ascii_lower h.name ∈ HOP_BY_HOP_HEADERS := by simpa using hop
      have hcond : (!(HOP_BY_HOP_HEADERS.contains (ascii_lower h.name)) &&
          (h.value.all fun b => decide (b = 9 ∨ 32 ≤ b ∧ b ≤ 126))) = false := by
        simp [hmem]
      rw [forward_request_headers, if_pos hop, ih, hcond]
      simp
    · have hm : ascii_lower h.name ∉ HOP_BY_HOP_HEADERS := by simpa using hop
      by_cases hv : (h.value.all fun b => decide (b = 9 ∨ 32 ≤ b ∧ b ≤ 126)) = true
      · have hv1 : ∀ b ∈ h.value, b = 9 ∨ 32 ≤ b ∧ b ≤ 126 := by simpa using hv
        have hcond : (!(HOP_BY_HOP_HEADERS.contains (ascii_lower h.name)) &&
            (h.value.all fun b => decide (b = 9 ∨ 32 ≤ b ∧ b ≤ 126))) = true := by
          rw [Bool.and_eq_true]
          exact ⟨by simp [hm], hv⟩
        rw [forward_request_headers, if_neg hop, header_value_to_str_of_valid hv, ih,
          if_pos hcond]
      · have hv2 : (h.value.all fun b => decide (b = 9 ∨ 32 ≤ b ∧ b ≤ 126)) = false := by
          simpa using hv
        rw [forward_request_headers, if_neg hop, header_value_to_str_of_invalid hv, ih, hv2]
        simp

/-- The response-direction forwarding keeps exactly the headers outside the
hop-by-hop set whose value bytes are visible ASCII or tab, unchanged and in
order. -/
theorem forward_response_headers_eq_filter (hs : List Header) :
    forward_response_headers hs = hs.filter (fun h =>
      !(HOP_BY_HOP_HEADERS.contains (ascii_lower h.name)) &&
      h.value.all (fun b => b = 9 ∨ (32 ≤ b ∧ b ≤ 126))) := by
  induction hs with
  | nil => rfl
  | cons h rest ih =>
    rw [List.filter_cons]
    by_cases hop : HOP_BY_HOP_HEADERS.contains (ascii_lower h.name) = true
    · have hmem : ascii_lower h.name ∈ HOP_BY_HOP_HEADERS := by simpa using hop
      have hcond : (!(HOP_BY_HOP_HEADERS.contains (ascii_lower h.name)) &&
          (h.value.all fun b => decide (b = 9 ∨ 32 ≤ b ∧ b ≤ 126))) = false := by
        simp [hmem]
      rw [forward_response_headers, if_pos hop, ih, hcond]
      simp
    · have hm : ascii_lower h.name ∉ HOP_BY_HOP_HEADERS := by simpa using hop
      by_cases hv : (h.value.all fun b => decide (b = 9 ∨ 32 ≤ b ∧ b ≤ 126)) = true
      · have hv1 : ∀ b ∈ h.value, b = 9 ∨ 32 ≤ b ∧ b ≤ 126 := by simpa using hv
        have hcond : (!(HOP_BY_HOP_HEADERS.contains (ascii_lower h.name)) &&
            (h.value.all fun b => decide (b = 9 ∨ 32 ≤ b ∧ b ≤ 126))) = true := by
          rw [Bool.and_eq_true]
          exact ⟨by simp [hm], hv⟩
        rw [forward_response_headers, if_neg hop, header_value_to_str_of_valid hv, ih,
          if_pos hcond]
      · have hv2 : (h.value.all fun b => decide (b = 9 ∨ 32 ≤ b ∧ b ≤ 126)) = false := by
          simpa using hv
        rw [forward_response_headers, if_neg hop, header_value_to_str_of_invalid hv, ih, hv2]
        simp

/-- C8 (amended): the forwarded message drops every header whose lower-cased
name is in the hop-by-hop set and additionally every header whose value is not
a valid visible-ASCII string (`to_str` failure is a silent skip); every other
header is preserved unchanged, in both the request and response directions. -/
theorem hop_by_hop_header_stripping (hs : List Header) :
    (forward_request_headers hs = hs.filter (fun h =>
        !(HOP_BY_HOP_HEADERS.contains (ascii_lower h.name)) &&
        h.value.all (fun b => b = 9 ∨ (32 ≤ b ∧ b ≤ 126)))) ∧
    (forward_response_headers hs = hs.filter (fun h =>
        !(HOP_BY_HOP_HEADERS.contains (ascii_lower h.name)) &&
        h.value.all (fun b => b = 9 ∨ (32 ≤ b ∧ b ≤ 126)))) ∧
    (∀ h ∈ hs, HOP_BY_HOP_HEADERS.contains (ascii_lower h.name) = true →
      h ∉ forward_request_headers hs ∧ h ∉ forward_response_headers hs) ∧
    (∀ h ∈ hs, HOP_BY_HOP_HEADERS.contains (ascii_lower h.name) = false →
      (h.value.all (fun b => b = 9 ∨ (32 ≤ b ∧ b ≤ 126)) = true) →
      h ∈ forward_request_headers hs ∧ h ∈ forward_response_headers hs) := by
  refine ⟨forward_request_headers_eq_filter hs, forward_response_headers_eq_filter hs, ?_, ?_⟩
  · intro h hmem hop
    have hmem2 : ascii_lower h.name ∈ HOP_BY_HOP_HEADERS := by simpa using hop
    rw [forward_request_headers_eq_filter, forward_response_headers_eq_filter]
    constructor <;>
      · intro hin
        rcases List.mem_filter.mp hin with ⟨-, hcond⟩
        rw [Bool.and_eq_true] at hcond
        simp [hmem2] at hcond
  · intro h hmem hop hv
    have hm : ascii_lower h.name ∉ HOP_BY_HOP_HEADERS := by simpa using hop
    rw [forward_request_headers_eq_filter, forward_response_headers_eq_filter]
    have hcond : (!(HOP_BY_HOP_HEADERS.contains (ascii_lower h.name)) &&
        (h.value.all fun b => decide (b = 9 ∨ 32 ≤ b ∧ b ≤ 126))) = true := by
      rw [Bool.and_eq_true]
      exact ⟨by simp [hm], hv⟩
    constructor <;> exact List.mem_filter.mpr ⟨hmem, hcond⟩

/-- Witness for C8's amended theorem at a concrete header list containing a
hop-by-hop header and a normal header. -/
theorem hop_by_hop_header_stripping_witness :
    (forward_request_headers
        [{ name := "connection", value := [97] }, { name := "x-a", value := [97] }] =
      List.filter (fun h =>
        !(HOP_BY_HOP_HEADERS.contains (ascii_lower h.name)) &&
        h.value.all (fun b => b = 9 ∨ (32 ≤ b ∧ b ≤ 126)))
        [{ name := "connection", value := [97] }, { name := "x-a", value := [97] }]) ∧
    (forward_response_headers
        [{ name := "connection", value := [97] }, { name := "x-a", value := [97] }] =
      List.filter (fun h =>
        !(HOP_BY_HOP_HEADERS.contains (ascii_lower h.name)) &&
        h.value.all (fun b => b = 9 ∨ (32 ≤ b ∧ b ≤ 126)))
        [{ name := "connection", value := [97] }, { name := "x-a", value := [97] }]) ∧
    (∀ h ∈ [({ name := "connection", value := [97] } : Header),
            { name := "x-a", value := [97] }],
      HOP_BY_HOP_HEADERS.contains (ascii_lower h.name) = true →
      h ∉ forward_request_headers
          [{ name := "connection", value := [97] }, { name := "x-a", value := [97] }] ∧
      h ∉ forward_response_headers
          [{ name := "connection", value := [97] }, { name := "x-a", value := [97] }]) ∧
    (∀ h ∈ [({ name := "connection", value := [97] } : Header),
            { name := "x-a", value := [97] }],
      HOP_BY_HOP_HEADERS.contains (ascii_lower h.name) = false →
      (h.value.all (fun b => b = 9 ∨ (32 ≤ b ∧ b ≤ 126)) = true) →
      h ∈ forward_request_headers
          [{ name := "connection", value := [97] }, { name := "x-a", value := [97] }] ∧
      h ∈ forward_response_headers
          [{ name := "connection", value := [97] }, { name := "x-a", value := [97] }]) :=
  hop_by_hop_header_stripping
    [{ name := "connection", value := [97] }, { name := "x-a", value := [97] }]

/-- C4 counterexample: with grace period 60 s, an absent non-static instance
whose `last_seen` age is exactly 60 s is removed by the sync tick, although the
age has not exceeded (strictly) the grace period, refuting the claim's
"removed if and only if now - last_seen has exceeded the grace period". -/
theorem sync_removes_at_exact_grace_counterexample :
    sync_tick [sampleInstance "a" 1] (some []) 60 60 = [] ∧
    ¬ ((60 : Int) - (sampleInstance "a" 1).last_seen > ((60 : Nat) : Int)) := by
  constructor
  · decide
  · decide

/-- A record-application step of the sync never disturbs a pool entry whose
name differs from the pulled row's name. -/
theorem sync_update_entry_other {rs : RegistryService} {t : ServiceInstance}
    (now : Int) (hne : t.name ≠ rs.name) : sync_update_entry now rs t = t := by
  unfold sync_update_entry
  exact if_neg hne

/-- The per-entry refresh never changes an entry's name. -/
theorem sync_update_entry_name (now : Int) (rs : RegistryService) (t : ServiceInstance) :
    (sync_update_entry now rs t).name = t.name := by
  unfold sync_update_entry
  split <;> rfl

theorem sync_apply_record_mem_absent {pool : List ServiceInstance}
    {s : ServiceInstance} {rs : RegistryService} (now : Int)
    (hmem : s ∈ pool) (hne : rs.name ≠ s.name) :
    s ∈ sync_apply_record now pool rs := by
  unfold sync_apply_record
  split
  · exact hmem
  · split
    · have h2 := List.mem_map_of_mem (sync_update_entry now rs) hmem
      rwa [sync_update_entry_other now (fun hx => hne hx.symm)] at h2
    · exact List.mem_append_left _ hmem

/-- A record-application step of the sync keeps the pool's name column
duplicate-free. -/
theorem sync_apply_record_nodup {pool : List ServiceInstance}
    {rs : RegistryService} (now : Int)
    (hnodup : (pool.map (fun t => t.name)).Nodup) :
    ((sync_apply_record now pool rs).map (fun t => t.name)).Nodup := by
  unfold sync_apply_record
  split
  · exact hnodup
  · split
    · rw [List.map_map]
      have heq : ((fun t : ServiceInstance => t.name) ∘ sync_update_entry now rs) =
          (fun t : ServiceInstance => t.name) := by
        funext t
        exact sync_update_entry_name now rs t
      rw [heq]
      exact hnodup
    · next hany =>
      rw [List.map_append]
      rw [List.nodup_append]
      refine ⟨hnodup, List.nodup_singleton _, ?_⟩
      intro x hx hx2
      simp only [List.map_cons, List.map_nil, List.mem_singleton] at hx2
      subst hx2
      rcases List.mem_map.mp hx with ⟨t, ht, htn⟩
      exact hany (List.any_eq_true.mpr ⟨t, ht, by simp [htn, ServiceInstance.new]⟩)

/-- The whole update-or-add fold of the sync never disturbs a pool entry whose
name is absent from the pulled rows. -/
theorem sync_fold_mem_absent {regs : List RegistryService}
    {pool : List ServiceInstance} {s : ServiceInstance} (now : Int)
    (hmem : s ∈ pool) (habs : ∀ rs ∈ regs, rs.name ≠ s.name) :
    s ∈ regs.foldl (sync_apply_record now) pool := by
  induction regs generalizing pool with
  | nil => exact hmem
  | cons rs rest ih =>
    exact ih (sync_apply_record_mem_absent now hmem (habs rs (List.mem_cons_self _ _)))
      (fun r hr => habs r (List.mem_cons_of_mem _ hr))

/-- The whole update-or-add fold of the sync keeps the name column
duplicate-free. -/
theorem sync_fold_nodup {regs : List RegistryService}
    {pool : List ServiceInstance} (now : Int)
    (hnodup : (pool.map (fun t => t.name)).Nodup) :
    ((regs.foldl (sync_apply_record now) pool).map (fun t => t.name)).Nodup := by
  induction regs generalizing pool with
  | nil => exact hnodup
  | cons rs rest ih => exact ih (sync_apply_record_nodup now hnodup)

/-- C4 (amended): on a registry-sync tick, a failed pull leaves the pool
completely unchanged; under a successful pull an instance absent from the
pulled set is kept whenever its metadata `static` flag is true, and a
non-static absent instance is kept exactly when `now - last_seen` is strictly
below the grace period — i.e. removed as soon as the age reaches (`≥`, not
`>`) the grace period. -/
theorem registry_sync_membership
    (pool : List ServiceInstance) (now : Int) (grace : Nat)
    (regs : List RegistryService) (s : ServiceInstance)
    (hmem : s ∈ pool)
    (habs : ∀ rs ∈ regs, rs.name ≠ s.name)
    (hnodup : (pool.map (fun t => t.name)).Nodup) :
    sync_tick pool none now grace = pool ∧
    (s.metadata.static.getD false = true → s ∈ sync_tick pool (some regs) now grace) ∧
    (s.metadata.static.getD false = false →
      (s ∈ sync_tick pool (some regs) now grace ↔ now - s.last_seen < (grace : Int))) := by
  have hs1 : s ∈ regs.foldl (sync_apply_record now) pool := sync_fold_mem_absent now hmem habs
  have hnodup1 := @sync_fold_nodup regs _ now hnodup
  have hinj := List.inj_on_of_nodup_map hnodup1
  have habsb : (regs.map (fun t => t.name)).contains s.name = false := by
    rw [List.contains_eq_any_beq]
    rw [List.any_eq_false]
    intro x hx
    rcases List.mem_map.mp hx with ⟨rs, hrs, rfl⟩
    simp only [beq_iff_eq]
    exact fun h => habs rs hrs h.symm
  have hchar : ∀ t ∈ regs.foldl (sync_apply_record now) pool,
      (t ∈ sync_tick pool (some regs) now grace ↔
        ¬ (¬ ((regs.map (fun u => u.name)).contains t.name) ∧
           ¬ (t.metadata.static.getD false) ∧
           now - t.last_seen ≥ (grace : Int))) := by
    intro t ht
    show t ∈ List.filter _ _ ↔ _
    rw [List.mem_filter]
    constructor
    · rintro ⟨-, hkeep⟩
      intro hpred
      rw [decide_eq_true_eq] at hkeep
      refine hkeep ?_
      rw [List.contains_eq_any_beq, List.any_eq_true]
      refine ⟨t.name, List.mem_map_of_mem _ (List.mem_filter.mpr ⟨ht, ?_⟩), by simp⟩
      rw [Bool.and_eq_true, Bool.and_eq_true]
      refine ⟨⟨?_, ?_⟩, ?_⟩
      · simpa using hpred.1
      · simpa using hpred.2.1
      · simpa using hpred.2.2
    · intro hnp
      refine ⟨ht, ?_⟩
      rw [decide_eq_true_eq]
      intro hin
      rw [List.contains_eq_any_beq, List.any_eq_true] at hin
      rcases hin with ⟨nm, hnm, hbeq⟩
      rcases List.mem_map.mp hnm with ⟨u, hu, rfl⟩
      rcases List.mem_filter.mp hu with ⟨humem, hupred⟩
      have hueq : u = t := hinj humem ht (Eq.symm (by simpa using hbeq))
      subst hueq
      rw [Bool.and_eq_true, Bool.and_eq_true] at hupred
      exact hnp ⟨by simpa using hupred.1.1, by simpa using hupred.1.2,
        by simpa using hupred.2⟩
  refine ⟨rfl, ?_, ?_⟩
  · intro hstatic
    rw [hchar s hs1]
    intro hpred
    rw [hstatic] at hpred
    exact hpred.2.1 rfl
  · intro hstatic
    rw [hchar s hs1]
    constructor
    · intro hnp
      by_contra hge
      exact hnp ⟨by rw [habsb]; simp, by rw [hstatic]; simp, by omega⟩
    · intro hlt hpred
      omega

/-- Witness for C4's amended theorem: a non-static instance absent from an
empty pull with age 10 s survives a 60 s grace period. -/
theorem registry_sync_membership_witness :
    (sampleInstance "a" 1 ∈ [sampleInstance "a" 1] ∧
      ([sampleInstance "a" 1].map (fun t => t.name)).Nodup) ∧
    (sync_tick [sampleInstance "a" 1] none 10 60 = [sampleInstance "a" 1] ∧
      ((sampleInstance "a" 1).metadata.static.getD false = true →
        sampleInstance "a" 1 ∈ sync_tick [sampleInstance "a" 1] (some []) 10 60) ∧
      ((sampleInstance "a" 1).metadata.static.getD false = false →
        (sampleInstance "a" 1 ∈ sync_tick [sampleInstance "a" 1] (some []) 10 60 ↔
          10 - (sampleInstance "a" 1).last_seen < ((60 : Nat) : Int)))) :=
  ⟨⟨by simp, by simp⟩,
    registry_sync_membership [sampleInstance "a" 1] 10 60 [] (sampleInstance "a" 1)
      (by simp) (by simp) (by simp)⟩

/-- The backoff interval is always at least 100 ms. -/
theorem wait_interval_at_ge (n : Nat) : 100 ≤ wait_interval_at n := by
  have h1 : 1 ≤ 2 ^ n := Nat.one_le_two_pow
  have h3 : 100 ≤ 100 * 2 ^ n := by
    calc 100 = 100 * 1 := by omega
    _ ≤ 100 * 2 ^ n := Nat.mul_le_mul_left 100 h1
  exact le_min h3 (by omega)

/-- Characterization of both exits of the readiness-detection loop: an early
exit reports the first iteration whose probe said ready, within the 30 s
budget; a timed-out exit happens only past the 30 s budget. The loop always
terminates (it is a total function) because each retry sleeps at least
100 ms. -/
theorem detect_loop_spec (ready : Nat → Bool) (extra_delay : Nat → Nat) :
    ∀ fuel n elapsed, MAX_WAIT_MS + 1 - elapsed ≤ fuel →
      (((detect_loop ready extra_delay n elapsed).1 = true →
        ∃ j, ready (n + j) = true ∧ (∀ i < j, ready (n + i) = false) ∧
          (detect_loop ready extra_delay n elapsed).2 ≤ MAX_WAIT_MS) ∧
       ((detect_loop ready extra_delay n elapsed).1 = false →
        MAX_WAIT_MS < (detect_loop ready extra_delay n elapsed).2)) := by
  intro fuel
  induction fuel with
  | zero =>
    intro n elapsed h
    have hgt : MAX_WAIT_MS < elapsed := by omega
    rw [detect_loop, if_pos hgt]
    exact ⟨fun hc => absurd hc (by simp), fun _ => hgt⟩
  | succ fuel ih =>
    intro n elapsed h
    by_cases h1 : MAX_WAIT_MS < elapsed
    · rw [detect_loop, if_pos h1]
      exact ⟨fun hc => absurd hc (by simp), fun _ => h1⟩
    · by_cases h2 : ready n = true
      · rw [detect_loop, if_neg h1, if_pos h2]
        refine ⟨fun _ => ⟨0, ?_, ?_, ?_⟩, fun hc => absurd hc (by simp)⟩
        · simpa using h2
        · intro i hi
          exact absurd hi (Nat.not_lt_zero i)
        · simp only [MAX_WAIT_MS] at *
          omega
      · rw [detect_loop, if_neg h1, if_neg h2]
        have h100 := wait_interval_at_ge n
        have hfuel : MAX_WAIT_MS + 1 - (elapsed + (wait_interval_at n + extra_delay n)) ≤
            fuel := by omega
        rcases ih (n + 1) (elapsed + (wait_interval_at n + extra_delay n)) hfuel with
          ⟨ihT, ihF⟩
        refine ⟨?_, ihF⟩
        intro hT
        rcases ihT hT with ⟨j, hj, hbefore, hbound⟩
        refine ⟨j + 1, ?_, ?_, hbound⟩
        · have : n + (j + 1) = n + 1 + j := by omega
          rw [this]
          exact hj
        · intro i hi
          match i with
          | 0 =>
            simpa using h2
          | Nat.succ i2 =>
            have : n + (i2 + 1) = n + 1 + i2 := by omega
            rw [this]
            exact hbefore i2 (by omega)

/-- C9: the Babysitter's readiness detection always terminates and both exits
set `service_port` to the configured target port: early when some probe
iteration reports ready (a 2xx or 404 HTTP answer on `/v1/models` or
`/models` after a successful TCP connect), within the 30 s budget; otherwise
pessimistically once more than 30 s of wall time have elapsed. Backoff starts
at 100 ms and doubles, capped at 1 s. -/
theorem babysitter_readiness_detection
    (ready : Nat → Bool) (extra_delay : Nat → Nat) (target_port : Nat) :
    (detect_service_port ready extra_delay target_port).1 = target_port ∧
    ((detect_service_port ready extra_delay target_port).2.1 = true →
      ∃ j, ready j = true ∧ (∀ i < j, ready i = false) ∧
        (detect_service_port ready extra_delay target_port).2.2 ≤ MAX_WAIT_MS) ∧
    ((detect_service_port ready extra_delay target_port).2.1 = false →
      MAX_WAIT_MS < (detect_service_port ready extra_delay target_port).2.2) ∧
    wait_interval_at 0 = 100 ∧
    (∀ n, wait_interval_at (n + 1) = min (2 * wait_interval_at n) 1000) ∧
    (∀ c r1 r2, check_service_ready c r1 r2 = true ↔
      (c = true ∧ (probe_indicates_ready r1 = true ∨ probe_indicates_ready r2 = true))) ∧
    (∀ code, probe_indicates_ready (some code) = true ↔
      ((200 ≤ code ∧ code ≤ 299) ∨ code = 404)) ∧
    probe_indicates_ready none = false := by
  have hspec := detect_loop_spec ready extra_delay (MAX_WAIT_MS + 1) 0 100 (by omega)
  refine ⟨rfl, ?_, hspec.2, ?_, ?_, ?_, ?_, rfl⟩
  · intro hT
    rcases hspec.1 hT with ⟨j, hj, hbefore, hbound⟩
    exact ⟨j, by simpa using hj, fun i hi => by simpa using hbefore i hi, hbound⟩
  · decide
  · intro n
    simp only [wait_interval_at, pow_succ]
    omega
  · intro c r1 r2
    simp [check_service_ready]
  · intro code
    simp [probe_indicates_ready]

/-- Bumping a request counter is invisible to the session selection's view of
the pool. -/
theorem bump_request_selection_view (l : List ServiceInstance) (nm : String) :
    (bump_request l nm).map selection_view = l.map selection_view := by
  rw [bump_request, List.map_map]
  apply List.map_congr_left
  intro s _
  by_cases hs : s.name = nm
  · simp [Function.comp, hs, selection_view]
  · simp [Function.comp, hs]

/-- A weighted round-robin selection step (counter bump plus request-counter
bump of the chosen instance) is invisible to the session selection's view. -/
theorem lb_select_selection_view (st : PoolState) (m : Option String) :
    ((lb_select_by_model st m).2.services).map selection_view =
      st.services.map selection_view := by
  unfold lb_select_by_model
  rcases h : get_next_healthy_service_by_model st.services st.index m with ⟨choice, idx1⟩
  cases choice with
  | some s => simpa using bump_request_selection_view st.services s.name
  | none => simp

/-- The session filter reads only the session view of an entry. -/
theorem session_filter_of_view {a b : ServiceInstance}
    (h : selection_view a = selection_view b) (m : Option String) :
    session_filter m a = session_filter m b := by
  have hhealthy : a.healthy = b.healthy := by
    have := congrArg (fun v => v.2.1) h
    simpa [selection_view] using this
  have hmodels : a.models = b.models := by
    have := congrArg (fun v => v.2.2) h
    simpa [selection_view] using this
  unfold session_filter
  rw [hhealthy, hmodels]

/-- Pools with the same session view filter to candidate lists with the same
session view. -/
theorem filter_selection_view {l1 l2 : List ServiceInstance}
    (h : l1.map selection_view = l2.map selection_view) (m : Option String) :
    (l1.filter (session_filter m)).map selection_view =
    (l2.filter (session_filter m)).map selection_view := by
  induction l1 generalizing l2 with
  | nil =>
    cases l2 with
    | nil => rfl
    | cons b t2 => simp at h
  | cons a t1 ih =>
    cases l2 with
    | nil => simp at h
    | cons b t2 =>
      simp only [List.map_cons, List.cons.injEq] at h
      have hcond := session_filter_of_view h.1 m
      rw [List.filter_cons, List.filter_cons, hcond]
      by_cases hb : session_filter m b = true
      · rw [if_pos hb, if_pos hb]
        simp only [List.map_cons]
        exact List.cons_eq_cons.mpr ⟨h.1, ih h.2⟩
      · rw [if_neg hb, if_neg hb]
        exact ih h.2

/-- Pools with the same session view give session selections with the same
name. -/
theorem session_view_determines_choice {l1 l2 : List ServiceInstance}
    (h : l1.map selection_view = l2.map selection_view)
    (key : String) (m : Option String) :
    (get_service_by_session l1 key m).map (fun s => s.name) =
      (get_service_by_session l2 key m).map (fun s => s.name) := by
  unfold get_service_by_session
  have hf := filter_selection_view h m
  have hlen : (l1.filter (session_filter m)).length =
      (l2.filter (session_filter m)).length := by
    have := congrArg List.length hf
    simpa using this
  by_cases he : (l1.filter (session_filter m)).isEmpty
  · rw [if_pos he, if_pos (by rwa [List.isEmpty_iff_length_eq_zero, ← hlen,
      ← List.isEmpty_iff_length_eq_zero])]
  · rw [if_neg he, if_neg (by
      intro hc
      exact he (by rwa [List.isEmpty_iff_length_eq_zero, hlen,
        ← List.isEmpty_iff_length_eq_zero]))]
    rw [hlen]
    have hget := congrArg
      (fun l => l.get? (string_hash key % (l2.filter (session_filter m)).length)) hf
    simp only [List.get?_map] at hget
    have h1 := congrArg (Option.map (fun v : String × Bool × List String => v.1)) hget
    simp only [Option.map_map] at h1
    convert h1 using 2

/-- C7: session-affine selection is stable — with the candidate set (names,
health, served models) unchanged, the selection for a fixed session key and
model returns the same candidate no matter how many weighted round-robin
selections (which advance the shared counter and the request counters) were
interleaved. Modelled from the spec: `get_service_by_session` is absent from
the provided sources; per §4.9 it hashes the key modulo the filtered
candidate-set size. -/
theorem session_affinity_consistency (st : PoolState) (ops : List (Option String))
    (key : String) (model_id : Option String) :
    (get_service_by_session (apply_selections st ops).services key model_id).map
        (fun s => s.name) =
      (get_service_by_session st.services key model_id).map (fun s => s.name) := by
  induction ops generalizing st with
  | nil => rfl
  | cons m ms ih =>
    show (get_service_by_session
        (apply_selections (lb_select_by_model st m).2 ms).services key model_id).map _ = _
    rw [ih]
    exact session_view_determines_choice (lb_select_selection_view st m) key model_id

/-- Witness for C7 at a concrete pool, session key and interleaving. -/
theorem session_affinity_consistency_witness :
    (get_service_by_session
        (apply_selections ⟨[sampleInstance "a" 1, sampleInstance "b" 2], 0⟩
          [some "m1", none, some "m1"]).services "sess" (some "m1")).map
        (fun s => s.name) =
      (get_service_by_session [sampleInstance "a" 1, sampleInstance "b" 2]
        "sess" (some "m1")).map (fun s => s.name) :=
  session_affinity_consistency ⟨[sampleInstance "a" 1, sampleInstance "b" 2], 0⟩
    [some "m1", none, some "m1"] "sess" (some "m1")

/-- The weighted accumulation loop returns the entry at the position computed
by `sel_index` over the weight column. -/
theorem select_weighted_eq_get (l : List ServiceInstance) (t : Nat) :
    select_weighted l t = l.get? (sel_index (l.map (fun s => s.weight)) t) := by
  induction l generalizing t with
  | nil => rfl
  | cons s rest ih =>
    simp only [select_weighted, List.map_cons, sel_index]
    by_cases ht : t < s.weight
    · rw [if_pos ht, if_pos ht]
      rfl
    · rw [if_neg ht, if_neg ht]
      exact ih (t - s.weight)

/-- Below the total weight, `sel_index` lands inside the list. -/
theorem sel_index_lt_length {ws : List Nat} {t : Nat} (h : t < ws.sum) :
    sel_index ws t < ws.length := by
  induction ws generalizing t with
  | nil => simp at h
  | cons w rest ih =>
    simp only [sel_index, List.length_cons]
    by_cases ht : t < w
    · rw [if_pos ht]
      omega
    · rw [if_neg ht]
      have : t - w < rest.sum := by
        simp only [List.sum_cons] at h
        omega
      have := ih this
      omega

/-- Over one full weight cycle, position `j` is selected exactly `weight j`
times. -/
theorem countP_range_sel_index (ws : List Nat) (j : Nat) (hj : j < ws.length) :
    (List.range ws.sum).countP (fun t => sel_index ws t == j) = ws.get ⟨j, hj⟩ := by
  induction ws generalizing j with
  | nil => simp at hj
  | cons w rest ih =>
    have hsplit : List.range (w :: rest).sum =
        List.range w ++ (List.range rest.sum).map (w + ·) := by
      rw [List.sum_cons, List.range_add]
    rw [hsplit, List.countP_append, List.countP_map]
    have hfirst : ∀ t ∈ List.range w, sel_index (w :: rest) t = 0 := by
      intro t ht
      rw [List.mem_range] at ht
      simp only [sel_index]
      rw [if_pos ht]
    have hsecond : ∀ t ∈ List.range rest.sum,
        sel_index (w :: rest) (w + t) = sel_index rest t + 1 := by
      intro t ht
      simp only [sel_index]
      rw [if_neg (by omega), Nat.add_sub_cancel_left]
    match j with
    | 0 =>
      have h1 : (List.range w).countP (fun t => sel_index (w :: rest) t == 0) = w := by
        rw [List.countP_eq_length.mpr]
        · exact List.length_range w
        · intro t ht
          simp [hfirst t ht]
      have h2 : (List.range rest.sum).countP
          ((fun t => sel_index (w :: rest) t == 0) ∘ (w + ·)) = 0 := by
        rw [List.countP_eq_zero.mpr]
        intro t ht
        simp [Function.comp, hsecond t ht]
      rw [h1, h2]
      simp
    | Nat.succ j2 =>
      have hj2 : j2 < rest.length := by
        simpa using hj
      have h1 : (List.range w).countP (fun t => sel_index (w :: rest) t == j2 + 1) = 0 := by
        rw [List.countP_eq_zero.mpr]
        intro t ht
        simp [hfirst t ht]
      have h2 : (List.range rest.sum).countP
          ((fun t => sel_index (w :: rest) t == j2 + 1) ∘ (w + ·)) =
          (List.range rest.sum).countP (fun t => sel_index rest t == j2) := by
        apply List.countP_congr
        intro t ht
        simp [Function.comp, hsecond t ht]
      rw [h1, h2, ih j2 hj2]
      simp

/-- Counting a predicate of the shifted residue over one period is the same as
counting it over the plain residues. -/
theorem countP_range_mod_shift (q : Nat → Bool) (W : Nat) (hW : 0 < W) (i : Nat) :
    (List.range W).countP (fun t => q ((i + t) % W)) = (List.range W).countP q := by
  have hrW : i % W < W := Nat.mod_lt _ hW
  have hsplitL : List.range W =
      List.range (W - i % W) ++ (List.range (i % W)).map ((W - i % W) + ·) := by
    conv_lhs => rw [show W = (W - i % W) + i % W by omega]
    rw [List.range_add]
  have hsplitR : List.range W =
      List.range (i % W) ++ (List.range (W - i % W)).map ((i % W) + ·) := by
    conv_lhs => rw [show W = i % W + (W - i % W) by omega]
    rw [List.range_add]
  have hL : (List.range W).countP (fun t => q ((i + t) % W)) =
      (List.range (W - i % W)).countP (fun t => q (i % W + t)) +
        (List.range (i % W)).countP q := by
    conv_lhs => rw [hsplitL]
    rw [List.countP_append, List.countP_map]
    congr 1
    · apply List.countP_congr
      intro t ht
      rw [List.mem_range] at ht
      have hdm := Nat.div_add_mod i W
      have h1 : i + t = W * (i / W) + (i % W + t) := by omega
      have : (i + t) % W = i % W + t := by
        rw [h1, Nat.mul_add_mod]
        exact Nat.mod_eq_of_lt (by omega)
      rw [this]
    · apply List.countP_congr
      intro t ht
      rw [List.mem_range] at ht
      simp only [Function.comp]
      have hdm := Nat.div_add_mod i W
      have hx : W * (i / W + 1) = W * (i / W) + W := by ring
      have h2 : i + (W - i % W + t) = W * (i / W + 1) + t := by omega
      have : (i + (W - i % W + t)) % W = t := by
        rw [h2, Nat.mul_add_mod]
        exact Nat.mod_eq_of_lt (by omega)
      rw [this]
  have hR : (List.range W).countP q =
      (List.range (i % W)).countP q +
        (List.range (W - i % W)).countP (fun t => q (i % W + t)) := by
    conv_lhs => rw [hsplitR]
    rw [List.countP_append, List.countP_map]
    rfl
  omega

/-- Counting a predicate of the running residue over `k` full periods is `k`
times its count over one period. -/
theorem countP_range_mul_period (q : Nat → Bool) (W : Nat) (hW : 0 < W)
    (i k : Nat) :
    (List.range (k * W)).countP (fun t => q ((i + t) % W)) =
      k * (List.range W).countP q := by
  induction k generalizing i with
  | zero => simp
  | succ k2 ih =>
    have hsplit : List.range ((k2 + 1) * W) =
        List.range (k2 * W) ++ (List.range W).map (k2 * W + ·) := by
      rw [show (k2 + 1) * W = k2 * W + W by ring, List.range_add]
    rw [hsplit, List.countP_append, List.countP_map, ih i]
    have h2 : (List.range W).countP ((fun t => q ((i + t) % W)) ∘ (k2 * W + ·)) =
        (List.range W).countP (fun t => q ((i + t) % W)) := by
      apply List.countP_congr
      intro t ht
      simp only [Function.comp]
      rw [show i + (k2 * W + t) = (i + t) + W * k2 by ring, Nat.add_mul_mod_self_left]
    rw [h2, countP_range_mod_shift q W hW i]
    ring

/-- Pools with the same round-robin view have the same name column. -/
theorem wrr_view_map_name {l1 l2 : List ServiceInstance}
    (h : l1.map wrr_view = l2.map wrr_view) :
    l1.map (fun s => s.name) = l2.map (fun s => s.name) := by
  have h1 := congrArg (List.map (fun v : String × Bool × List String × Nat => v.1)) h
  rw [List.map_map, List.map_map] at h1
  exact h1

/-- Pools with the same round-robin view have the same weight column. -/
theorem wrr_view_map_weight {l1 l2 : List ServiceInstance}
    (h : l1.map wrr_view = l2.map wrr_view) :
    l1.map (fun s => s.weight) = l2.map (fun s => s.weight) := by
  have h1 := congrArg (List.map (fun v : String × Bool × List String × Nat => v.2.2.2)) h
  rw [List.map_map, List.map_map] at h1
  exact h1

/-- Health transports along equality of round-robin views. -/
theorem wrr_view_healthy_all {l services : List ServiceInstance}
    (h : l.map wrr_view = services.map wrr_view)
    (hh : ∀ s ∈ services, s.healthy = true) : ∀ s ∈ l, s.healthy = true := by
  intro s hs
  have hmem : wrr_view s ∈ services.map wrr_view := by
    rw [← h]
    exact List.mem_map_of_mem _ hs
  rcases List.mem_map.mp hmem with ⟨s2, hs2, hview⟩
  have heq : s2.healthy = s.healthy :=
    congrArg (fun v : String × Bool × List String × Nat => v.2.1) hview
  rw [← heq]
  exact hh s2 hs2

/-- Model membership transports along equality of round-robin views. -/
theorem wrr_view_models_all {l services : List ServiceInstance} {m : String}
    (h : l.map wrr_view = services.map wrr_view)
    (hm : ∀ s ∈ services, s.models.contains m = true) :
    ∀ s ∈ l, s.models.contains m = true := by
  intro s hs
  have hmem : wrr_view s ∈ services.map wrr_view := by
    rw [← h]
    exact List.mem_map_of_mem _ hs
  rcases List.mem_map.mp hmem with ⟨s2, hs2, hview⟩
  have heq : s2.models = s.models :=
    congrArg (fun v : String × Bool × List String × Nat => v.2.2.1) hview
  rw [← heq]
  exact hm s2 hs2

/-- Bumping a request counter is invisible to the round-robin view. -/
theorem bump_request_wrr_view (l : List ServiceInstance) (nm : String) :
    (bump_request l nm).map wrr_view = l.map wrr_view := by
  rw [bump_request, List.map_map]
  apply List.map_congr_left
  intro s _
  by_cases hs : s.name = nm
  · simp [Function.comp, hs, wrr_view]
  · simp [Function.comp, hs]

/-- Over a pool whose every entry is healthy and serves the requested model,
`get_next_healthy_service_by_model` is exactly the `sel_index` lookup at the
counter's residue, and it bumps the counter by one. -/
theorem get_next_uniform {l services : List ServiceInstance} {m : String}
    (hview : l.map wrr_view = services.map wrr_view)
    (hhealthy : ∀ s ∈ services, s.healthy = true)
    (hmodel : ∀ s ∈ services, s.models.contains m = true)
    (hW : 0 < (services.map (fun s => s.weight)).sum) (i : Nat) :
    get_next_healthy_service_by_model l i (some m) =
      (l.get? (sel_index (services.map (fun s => s.weight))
        (i % (services.map (fun s => s.weight)).sum)), i + 1) := by
  have hhl := wrr_view_healthy_all hview hhealthy
  have hml := wrr_view_models_all hview hmodel
  have hwl : l.map (fun s => s.weight) = services.map (fun s => s.weight) :=
    wrr_view_map_weight hview
  have hf1 : l.filter (fun s => s.healthy) = l :=
    List.filter_eq_self.mpr (fun a ha => hhl a ha)
  have hf2 : l.filter (fun s => s.models.contains m) = l :=
    List.filter_eq_self.mpr (fun a ha => hml a ha)
  have hlen : l.length = services.length := by
    have := congrArg List.length hview
    simpa using this
  have hnil : l ≠ [] := by
    intro h0
    rw [h0] at hlen
    rcases services with _ | ⟨s0, rest⟩
    · simp at hW
    · simp at hlen
  have hWl : 0 < (l.map (fun s => s.weight)).sum := by
    rw [hwl]
    exact hW
  simp only [get_next_healthy_service_by_model, hf1, hf2]
  unfold select_wrr
  rw [if_neg (by simpa [List.isEmpty_iff] using hnil)]
  rw [hwl]
  simp only
  rw [if_neg (by omega)]
  have hmod : i % (services.map (fun s => s.weight)).sum <
      (services.map (fun s => s.weight)).sum := Nat.mod_lt _ hW
  have hidx : sel_index (services.map (fun s => s.weight))
      (i % (services.map (fun s => s.weight)).sum) < l.length := by
    have h1 := sel_index_lt_length hmod
    rw [List.length_map] at h1
    omega
  rw [select_weighted_eq_get, hwl]
  rw [List.get?_eq_get hidx]

/-- A run of weighted round-robin selections over an all-healthy,
all-model-serving pool produces exactly the `sel_index` name sequence at the
successive counter residues. -/
theorem run_selections_names {services : List ServiceInstance} {m : String}
    (hhealthy : ∀ s ∈ services, s.healthy = true)
    (hmodel : ∀ s ∈ services, s.models.contains m = true)
    (hW : 0 < (services.map (fun s => s.weight)).sum) :
    ∀ (n : Nat) (l : List ServiceInstance) (i : Nat),
      l.map wrr_view = services.map wrr_view →
      (run_selections (some m) ⟨l, i⟩ n).map (Option.map (fun s => s.name)) =
        (List.range n).map (fun t =>
          (services.get? (sel_index (services.map (fun s => s.weight))
            ((i + t) % (services.map (fun s => s.weight)).sum))).map
            (fun s => s.name)) := by
  intro n
  induction n with
  | zero =>
    intro l i hview
    rfl
  | succ n2 ih =>
    intro l i hview
    have hsel := get_next_uniform hview hhealthy hmodel hW i
    have hmod : i % (services.map (fun s => s.weight)).sum <
        (services.map (fun s => s.weight)).sum := Nat.mod_lt _ hW
    have hlen : l.length = services.length := by
      have := congrArg List.length hview
      simpa using this
    have hidx : sel_index (services.map (fun s => s.weight))
        (i % (services.map (fun s => s.weight)).sum) < l.length := by
      have h1 := sel_index_lt_length hmod
      rw [List.length_map] at h1
      omega
    obtain ⟨c, hc⟩ : ∃ c, l.get? (sel_index (services.map (fun s => s.weight))
        (i % (services.map (fun s => s.weight)).sum)) = some c := by
      rw [List.get?_eq_get hidx]
      exact ⟨_, rfl⟩
    have hstep : lb_select_by_model ⟨l, i⟩ (some m) =
        (some c, ⟨bump_request l c.name, i + 1⟩) := by
      unfold lb_select_by_model
      rw [show (⟨l, i⟩ : PoolState).services = l from rfl,
        show (⟨l, i⟩ : PoolState).index = i from rfl, hsel, hc]
    have hrun : run_selections (some m) ⟨l, i⟩ (n2 + 1) =
        some c :: run_selections (some m) ⟨bump_request l c.name, i + 1⟩ n2 := by
      simp only [run_selections]
      rw [hstep]
    rw [hrun]
    have hview2 : (bump_request l c.name).map wrr_view = services.map wrr_view :=
      (bump_request_wrr_view l c.name).trans hview
    rw [List.map_cons, ih (bump_request l c.name) (i + 1) hview2]
    rw [List.range_succ_eq_map, List.map_cons, List.map_map]
    have hhead : Option.map (fun s => s.name) (some c) =
        (services.get? (sel_index (services.map (fun s => s.weight))
          ((i + 0) % (services.map (fun s => s.weight)).sum))).map (fun s => s.name) := by
      rw [Nat.add_zero]
      have h1 : (l.get? (sel_index (services.map (fun s => s.weight))
          (i % (services.map (fun s => s.weight)).sum))).map (fun s => s.name) =
          (services.get? (sel_index (services.map (fun s => s.weight))
            (i % (services.map (fun s => s.weight)).sum))).map (fun s => s.name) := by
        rw [← List.get?_map, ← List.get?_map, wrr_view_map_name hview]
      rw [← h1, hc]
    rw [hhead]
    congr 1
    apply List.map_congr_left
    intro t _
    simp only [Function.comp]
    rw [show i + 1 + t = i + (t + 1) by omega]

/-- Counting occurrences in a mapped list is counting the preimage predicate. -/
theorem count_map_eq_countP {α β : Type} [BEq β] (f : α → β) (l : List α) (b : β) :
    (l.map f).count b = l.countP (fun a => f a == b) := by
  induction l with
  | nil => rfl
  | cons a t ih =>
    simp only [List.map_cons, List.count_cons, List.countP_cons, ih]

/-- C1: weighted round-robin is exactly fair over whole weight cycles — for a
pool whose entries are all healthy, all serve the requested model, have
pairwise-distinct names and positive total weight `W`, a run of `k * W`
consecutive selections through `get_next_healthy_service_by_model` (no other
selection interleaved, membership unchanged, counters threaded through) picks
the candidate at position `j` exactly `k * weight(j)` times, from any starting
counter value. The fixed candidate list encodes the claim's stable iteration
order. -/
theorem weighted_round_robin_fairness
    (services : List ServiceInstance) (m : String) (i k j : Nat)
    (sj : ServiceInstance)
    (hj : services.get? j = some sj)
    (hhealthy : ∀ s ∈ services, s.healthy = true)
    (hmodel : ∀ s ∈ services, s.models.contains m = true)
    (hnodup : (services.map (fun s => s.name)).Nodup)
    (hW : 0 < (services.map (fun s => s.weight)).sum) :
    ((run_selections (some m) ⟨services, i⟩
        (k * (services.map (fun s => s.weight)).sum)).map
        (Option.map (fun s => s.name))).count (some sj.name) = k * sj.weight := by
  have hjlen : j < services.length := by
    by_contra hge
    rw [List.get?_eq_none.mpr (by omega)] at hj
    cases hj
  rw [run_selections_names hhealthy hmodel hW _ services i rfl]
  rw [count_map_eq_countP]
  have hpoint : ∀ t ∈ List.range (k * (services.map (fun s => s.weight)).sum),
      (((services.get? (sel_index (services.map (fun s => s.weight))
          ((i + t) % (services.map (fun s => s.weight)).sum))).map (fun s => s.name))
        == some sj.name)
        = (sel_index (services.map (fun s => s.weight))
            ((i + t) % (services.map (fun s => s.weight)).sum) == j) := by
    intro t _
    have hr : (i + t) % (services.map (fun s => s.weight)).sum <
        (services.map (fun s => s.weight)).sum := Nat.mod_lt _ hW
    have hidx : sel_index (services.map (fun s => s.weight))
        ((i + t) % (services.map (fun s => s.weight)).sum) < services.length := by
      have h1 := sel_index_lt_length hr
      rw [List.length_map] at h1
      exact h1
    obtain ⟨sx, hsx⟩ : ∃ sx, services.get? (sel_index (services.map (fun s => s.weight))
        ((i + t) % (services.map (fun s => s.weight)).sum)) = some sx := by
      rw [List.get?_eq_get hidx]
      exact ⟨_, rfl⟩
    rw [hsx]
    have hiff : (sx.name = sj.name) ↔
        (sel_index (services.map (fun s => s.weight))
          ((i + t) % (services.map (fun s => s.weight)).sum) = j) := by
      constructor
      · intro hnames
        have h9 : (services.map (fun s => s.name)).get?
            (sel_index (services.map (fun s => s.weight))
              ((i + t) % (services.map (fun s => s.weight)).sum)) =
            (services.map (fun s => s.name)).get? j := by
          rw [List.get?_map, List.get?_map, hsx, hj]
          simp [hnames]
        exact List.get?_inj (by rw [List.length_map]; exact hidx) hnodup h9
      · intro hidxj
        rw [hidxj, hj] at hsx
        cases hsx
        rfl
    by_cases hcase : sel_index (services.map (fun s => s.weight))
        ((i + t) % (services.map (fun s => s.weight)).sum) = j
    · simp [hiff.mpr hcase, hcase]
    · have hne : ¬ sx.name = sj.name := fun hn => hcase (hiff.mp hn)
      simp [hne, hcase]
  rw [List.countP_congr (fun t ht => by rw [hpoint t ht])]
  rw [countP_range_mul_period
    (fun r => sel_index (services.map (fun s => s.weight)) r == j)
    ((services.map (fun s => s.weight)).sum) hW i k]
  rw [countP_range_sel_index (services.map (fun s => s.weight)) j
    (by rw [List.length_map]; exact hjlen)]
  have hget : (services.map (fun s => s.weight)).get
      ⟨j, by rw [List.length_map]; exact hjlen⟩ = sj.weight := by
    rw [List.get_map]
    have hsj : services.get ⟨j, hjlen⟩ = sj := by
      have h1 := List.get?_eq_get hjlen
      rw [hj] at h1
      exact (Option.some_inj.mp h1).symm
    rw [hsj]
  rw [hget]

/-- Witness for C1: pool {a(weight 1), b(weight 2)} serving `"m1"`, one full
cycle of `W = 3` selections from counter 0 picks `a` exactly once. -/
theorem weighted_round_robin_fairness_witness :
    (([sampleInstance "a" 1, sampleInstance "b" 2].get? 0 = some (sampleInstance "a" 1)) ∧
      (∀ s ∈ [sampleInstance "a" 1, sampleInstance "b" 2], s.healthy = true) ∧
      (∀ s ∈ [sampleInstance "a" 1, sampleInstance "b" 2], s.models.contains "m1" = true) ∧
      (([sampleInstance "a" 1, sampleInstance "b" 2].map (fun s => s.name)).Nodup) ∧
      0 < ([sampleInstance "a" 1, sampleInstance "b" 2].map (fun s => s.weight)).sum) ∧
    ((run_selections (some "m1") ⟨[sampleInstance "a" 1, sampleInstance "b" 2], 0⟩
        (1 * ([sampleInstance "a" 1, sampleInstance "b" 2].map (fun s => s.weight)).sum)).map
        (Option.map (fun s => s.name))).count (some (sampleInstance "a" 1).name) =
      1 * (sampleInstance "a" 1).weight :=
  ⟨⟨rfl, by decide, by decide, by decide, by decide⟩,
    weighted_round_robin_fairness [sampleInstance "a" 1, sampleInstance "b" 2] "m1" 0 1 0
      (sampleInstance "a" 1) rfl (by decide) (by decide) (by decide) (by decide)⟩

/-- Name-keyed lookup through a name-preserving per-entry map. -/
theorem find_service_map_keyed {l : List ServiceInstance} {nm2 : String}
    (g : ServiceInstance → ServiceInstance) (hg : ∀ s, (g s).name = s.name) :
    find_service (l.map g) nm2 = (find_service l nm2).map g := by
  unfold find_service
  rw [List.find?_map]
  have hpg : ((fun s : ServiceInstance => decide (s.name = nm2)) ∘ g) =
      (fun s : ServiceInstance => decide (s.name = nm2)) := by
    funext s
    simp [Function.comp, hg s]
  rw [hpg]

/-- Bumping a request counter preserves every entry's name. -/
theorem bump_request_name (nm : String) (s : ServiceInstance) :
    ((fun s => if s.name = nm then { s with request_count := s.request_count + 1 }
      else s) s).name = s.name := by
  by_cases hs : s.name = nm <;> simp [hs]

/-- Marking a failure preserves every entry's name. -/
theorem mark_failure_name (nm : String) (s : ServiceInstance) :
    ((fun s => if s.name = nm then
        { s with error_count := s.error_count + 1, healthy := false }
      else s) s).name = s.name := by
  by_cases hs : s.name = nm <;> simp [hs]

/-- The name column is unchanged by a request-counter bump. -/
theorem bump_request_map_name (l : List ServiceInstance) (nm : String) :
    (bump_request l nm).map (fun s => s.name) = l.map (fun s => s.name) := by
  rw [bump_request, List.map_map]
  apply List.map_congr_left
  intro s _
  exact bump_request_name nm s

/-- The name column is unchanged by a failure marking. -/
theorem mark_failure_map_name (l : List ServiceInstance) (nm : String) :
    (mark_failure l nm).map (fun s => s.name) = l.map (fun s => s.name) := by
  rw [mark_failure, List.map_map]
  apply List.map_congr_left
  intro s _
  exact mark_failure_name nm s

/-- Name-keyed lookup after a request-counter bump. -/
theorem find_service_bump (l : List ServiceInstance) (nm nm2 : String) :
    find_service (bump_request l nm) nm2 = (find_service l nm2).map
      (fun s => if s.name = nm then { s with request_count := s.request_count + 1 }
        else s) := by
  rw [bump_request]
  exact find_service_map_keyed _ (bump_request_name nm)

/-- Name-keyed lookup after a failure marking. -/
theorem find_service_mark (l : List ServiceInstance) (nm nm2 : String) :
    find_service (mark_failure l nm) nm2 = (find_service l nm2).map
      (fun s => if s.name = nm then
          { s with error_count := s.error_count + 1, healthy := false }
        else s) := by
  rw [mark_failure]
  exact find_service_map_keyed _ (mark_failure_name nm)

/-- A found entry bears the looked-up name. -/
theorem find_service_name {l : List ServiceInstance} {nm : String} {s : ServiceInstance}
    (h : find_service l nm = some s) : s.name = nm := by
  have := List.find?_some h
  simpa using this

/-- Health of other entries is unchanged by a request-counter bump, and so are
their error counters; the bumped entry keeps health and error count too. -/
theorem healthy_of_bump (l : List ServiceInstance) (nm nm2 : String) :
    healthy_of (bump_request l nm) nm2 = healthy_of l nm2 := by
  unfold healthy_of
  rw [find_service_bump]
  rcases find_service l nm2 with _ | s
  · rfl
  · by_cases hs : s.name = nm <;> simp [hs]

/-- Error counters are unchanged by a request-counter bump. -/
theorem error_count_of_bump (l : List ServiceInstance) (nm nm2 : String) :
    error_count_of (bump_request l nm) nm2 = error_count_of l nm2 := by
  unfold error_count_of
  rw [find_service_bump]
  rcases find_service l nm2 with _ | s
  · rfl
  · by_cases hs : s.name = nm <;> simp [hs]

/-- The bumped entry's request counter rises by exactly one (and a missing
entry stays missing). -/
theorem request_count_of_bump (l : List ServiceInstance) (nm : String) :
    request_count_of (bump_request l nm) nm =
      (request_count_of l nm).map (fun c => c + 1) := by
  unfold request_count_of
  rw [find_service_bump]
  rcases h : find_service l nm with _ | s
  · rfl
  · have := find_service_name h
    simp [this]

/-- Other entries' request counters are unchanged by a request-counter bump. -/
theorem request_count_of_bump_other (l : List ServiceInstance) {nm nm2 : String}
    (hne : nm2 ≠ nm) :
    request_count_of (bump_request l nm) nm2 = request_count_of l nm2 := by
  unfold request_count_of
  rw [find_service_bump]
  rcases h : find_service l nm2 with _ | s
  · rfl
  · have := find_service_name h
    simp [this, hne]

/-- The marked entry is unhealthy afterwards (when present). -/
theorem healthy_of_mark (l : List ServiceInstance) (nm : String) :
    healthy_of (mark_failure l nm) nm = (healthy_of l nm).map (fun _ => false) := by
  unfold healthy_of
  rw [find_service_mark]
  rcases h : find_service l nm with _ | s
  · rfl
  · have := find_service_name h
    simp [this]

/-- The marked entry's error counter rises by exactly one (when present). -/
theorem error_count_of_mark (l : List ServiceInstance) (nm : String) :
    error_count_of (mark_failure l nm) nm =
      (error_count_of l nm).map (fun c => c + 1) := by
  unfold error_count_of
  rw [find_service_mark]
  rcases h : find_service l nm with _ | s
  · rfl
  · have := find_service_name h
    simp [this]

/-- Entries with a different name are untouched by a failure marking. -/
theorem find_service_mark_other (l : List ServiceInstance) {nm nm2 : String}
    (hne : nm2 ≠ nm) :
    find_service (mark_failure l nm) nm2 = find_service l nm2 := by
  rw [find_service_mark]
  rcases h : find_service l nm2 with _ | s
  · rfl
  · have := find_service_name h
    simp [this, hne]

/-- Under a duplicate-free name column, looking up a member's name finds that
member. -/
theorem find_service_eq_of_mem {l : List ServiceInstance} {s : ServiceInstance}
    (hnodup : (l.map (fun t => t.name)).Nodup) (hmem : s ∈ l) :
    find_service l s.name = some s := by
  induction l with
  | nil => cases hmem
  | cons a t ih =>
    rw [List.map_cons, List.nodup_cons] at hnodup
    unfold find_service
    rcases List.mem_cons.mp hmem with rfl | hmem2
    · rw [List.find?_cons_of_pos _ (by simp)]
    · by_cases hname : a.name = s.name
      · exfalso
        exact hnodup.1 (hname ▸ List.mem_map_of_mem _ hmem2)
      · rw [List.find?_cons_of_neg _ (by simpa using hname)]
        exact ih hnodup.2 hmem2

/-- An entry passing the cache-type filter is healthy. -/
theorem cache_type_filter_healthy {ct : String} {mid : Option String}
    {s : ServiceInstance} (h : cache_type_filter ct mid s = true) :
    s.healthy = true := by
  unfold cache_type_filter at h
  rw [Bool.and_eq_true, Bool.and_eq_true] at h
  exact h.1.1

/-- An entry passing the session filter is healthy. -/
theorem session_filter_healthy {mid : Option String}
    {s : ServiceInstance} (h : session_filter mid s = true) :
    s.healthy = true := by
  unfold session_filter at h
  rw [Bool.and_eq_true] at h
  exact h.1

/-- The cache-type tier only ever returns a healthy member of the pool and
leaves the pool's services untouched (it may advance the shared counter). -/
theorem get_service_by_cache_type_sound {st : PoolState} {ct : String}
    {mid : Option String} {s : ServiceInstance} {st1 : PoolState}
    (h : get_service_by_cache_type st ct mid = (some s, st1)) :
    s ∈ st.services ∧ s.healthy = true ∧ st1.services = st.services := by
  unfold get_service_by_cache_type at h
  rcases hw : select_wrr (st.services.filter (cache_type_filter ct mid)) st.index
    with ⟨choice, idx1⟩
  rw [hw] at h
  cases choice with
  | none => cases h
  | some s2 =>
    cases h
    have hmem := select_wrr_fst_mem (by rw [hw])
    rcases List.mem_filter.mp hmem with ⟨hmem2, hcond⟩
    exact ⟨hmem2, cache_type_filter_healthy hcond, rfl⟩

/-- The cache-type tier never changes the pool's services, whatever it
returns. -/
theorem get_service_by_cache_type_services {st : PoolState} {ct : String}
    {mid : Option String} {choice : Option ServiceInstance} {st1 : PoolState}
    (h : get_service_by_cache_type st ct mid = (choice, st1)) :
    st1.services = st.services := by
  unfold get_service_by_cache_type at h
  rcases hw : select_wrr (st.services.filter (cache_type_filter ct mid)) st.index
    with ⟨choice2, idx1⟩
  rw [hw] at h
  cases choice2 with
  | none =>
    cases h
    rfl
  | some s2 =>
    cases h
    rfl

/-- The session tier only ever returns a healthy member of the pool. -/
theorem get_service_by_session_sound {l : List ServiceInstance} {key : String}
    {mid : Option String} {s : ServiceInstance}
    (h : get_service_by_session l key mid = some s) :
    s ∈ l ∧ s.healthy = true := by
  simp only [get_service_by_session] at h
  split at h
  · cases h
  · have hmem := List.get?_mem h
    rcases List.mem_filter.mp hmem with ⟨hmem2, hcond⟩
    exact ⟨hmem2, session_filter_healthy hcond⟩

/-- The weighted round-robin tier only ever returns a healthy member of the
pool, and its state change is exactly a request-counter bump of the chosen
name. -/
theorem lb_select_by_model_sound {st : PoolState} {mid : Option String}
    {s : ServiceInstance} {st1 : PoolState}
    (h : lb_select_by_model st mid = (some s, st1)) :
    s ∈ st.services ∧ s.healthy = true ∧
      st1.services = bump_request st.services s.name := by
  unfold lb_select_by_model at h
  rcases hg : get_next_healthy_service_by_model st.services st.index mid with ⟨choice, idx1⟩
  rw [hg] at h
  cases choice with
  | none => cases h
  | some s2 =>
    cases h
    have hfst : (get_next_healthy_service_by_model st.services st.index mid).1 = some s := by
      rw [hg]
    unfold get_next_healthy_service_by_model at hfst
    have hmem := select_wrr_fst_mem hfst
    rcases mid with _ | m
    · rcases List.mem_filter.mp hmem with ⟨hmem2, hcond⟩
      exact ⟨hmem2, hcond, rfl⟩
    · rcases List.mem_filter.mp hmem with ⟨hmem1, -⟩
      rcases List.mem_filter.mp hmem1 with ⟨hmem2, hcond⟩
      exact ⟨hmem2, hcond, rfl⟩

/-- The full tiered selection only ever returns a healthy member of the pool;
its state change keeps the name column and every entry's health and error
counter, and the services either stay unchanged or get exactly a
request-counter bump of the chosen name. -/
theorem select_service_sound {st : PoolState} {rf : Option RoutingFields}
    {sid : Option String} {mid : Option String} {thr : Nat}
    {s : ServiceInstance} {st1 : PoolState}
    (h : select_service st rf sid mid thr = (some s, st1)) :
    s ∈ st.services ∧ s.healthy = true ∧
      (st1.services = st.services ∨ st1.services = bump_request st.services s.name) := by
  rcases rf with _ | rf
  · rcases sid with _ | key
    · simp only [select_service] at h
      rcases hlb : lb_select_by_model st mid with ⟨choice, stx⟩
      rw [hlb] at h
      cases choice with
      | none => cases h
      | some s2 =>
        cases h
        rcases lb_select_by_model_sound hlb with ⟨h1, h2, h3⟩
        exact ⟨h1, h2, Or.inr h3⟩
    · simp only [select_service] at h
      rcases hs : get_service_by_session st.services key mid with _ | s2
      · rw [hs] at h
        cases h
      · rw [hs] at h
        cases h
        rcases get_service_by_session_sound hs with ⟨h1, h2⟩
        exact ⟨h1, h2, Or.inl rfl⟩
  · simp only [select_service] at h
    split at h
    · rename_i s2 st1x heq
      cases h
      rcases get_service_by_cache_type_sound heq with ⟨h1, h2, h3⟩
      exact ⟨h1, h2, Or.inl h3⟩
    · rename_i st1x heq
      have hservices : st1x.services = st.services :=
        get_service_by_cache_type_services heq
      rcases sid with _ | key
      · rcases lb_select_by_model_sound h with ⟨h1, h2, h3⟩
        rw [hservices] at h1 h3
        exact ⟨h1, h2, Or.inr h3⟩
      · have hred : (match get_service_by_session st1x.services key mid with
            | some s => ((some s : Option ServiceInstance), st1x)
            | none => lb_select_by_model st1x mid) = (some s, st1) := h
        rcases hs : get_service_by_session st1x.services key mid with _ | s3
        · have h2 : lb_select_by_model st1x mid = (some s, st1) := by
            rw [hs] at hred
            exact hred
          rcases lb_select_by_model_sound h2 with ⟨h1, h2b, h3⟩
          rw [hservices] at h1 h3
          exact ⟨h1, h2b, Or.inr h3⟩
        · have h2 : ((some s3 : Option ServiceInstance), st1x) = (some s, st1) := by
            rw [hs] at hred
            exact hred
          cases h2
          rcases get_service_by_session_sound hs with ⟨h1, h2b⟩
          rw [hservices] at h1
          exact ⟨h1, h2b, Or.inl hservices⟩

/-- Entries with a different name are untouched by a request-counter bump. -/
theorem find_service_bump_other (l : List ServiceInstance) {nm nm2 : String}
    (hne : nm2 ≠ nm) :
    find_service (bump_request l nm) nm2 = find_service l nm2 := by
  rw [find_service_bump]
  rcases h : find_service l nm2 with _ | s
  · rfl
  · have := find_service_name h
    simp [this, hne]

/-- A declined weighted round-robin selection leaves the services untouched. -/
theorem lb_select_by_model_none_services {st : PoolState} {mid : Option String}
    {st1 : PoolState} (h : lb_select_by_model st mid = (none, st1)) :
    st1.services = st.services := by
  unfold lb_select_by_model at h
  rcases hg : get_next_healthy_service_by_model st.services st.index mid with ⟨choice, idx1⟩
  rw [hg] at h
  cases choice with
  | none =>
    cases h
    rfl
  | some s2 => cases h

/-- A declined tiered selection leaves the services untouched. -/
theorem select_service_none_services {st : PoolState} {rf : Option RoutingFields}
    {sid : Option String} {mid : Option String} {thr : Nat} {st1 : PoolState}
    (h : select_service st rf sid mid thr = (none, st1)) :
    st1.services = st.services := by
  rcases rf with _ | rf
  · rcases sid with _ | key
    · simp only [select_service] at h
      exact lb_select_by_model_none_services h
    · simp only [select_service] at h
      rcases hs : get_service_by_session st.services key mid with _ | s2
      · rw [hs] at h
        cases h
        rfl
      · rw [hs] at h
        cases h
  · simp only [select_service] at h
    split at h
    · rename_i s2 st1x heq
      cases h
    · rename_i st1x heq
      have hservices : st1x.services = st.services :=
        get_service_by_cache_type_services heq
      rcases sid with _ | key
      · rw [lb_select_by_model_none_services h]
        exact hservices
      · have hred : (match get_service_by_session st1x.services key mid with
            | some s => ((some s : Option ServiceInstance), st1x)
            | none => lb_select_by_model st1x mid) = (none, st1) := h
        rcases hs : get_service_by_session st1x.services key mid with _ | s3
        · rw [hs] at hred
          rw [lb_select_by_model_none_services hred]
          exact hservices
        · rw [hs] at hred
          cases hred

/-- After a successful tiered selection the new pool keeps the name column and
every entry's health and error counter, and entries other than the chosen one
are untouched entirely. -/
theorem select_service_some_state {st : PoolState} {rf : Option RoutingFields}
    {sid : Option String} {mid : Option String} {thr : Nat}
    {s : ServiceInstance} {st1 : PoolState}
    (h : select_service st rf sid mid thr = (some s, st1)) :
    st1.services.map (fun t => t.name) = st.services.map (fun t => t.name) ∧
    (∀ nm, healthy_of st1.services nm = healthy_of st.services nm) ∧
    (∀ nm, error_count_of st1.services nm = error_count_of st.services nm) ∧
    (∀ nm, nm ≠ s.name → find_service st1.services nm = find_service st.services nm) := by
  rcases select_service_sound h with ⟨-, -, hch⟩
  rcases hch with hch | hch
  · rw [hch]
    exact ⟨rfl, fun _ => rfl, fun _ => rfl, fun _ _ => rfl⟩
  · rw [hch]
    exact ⟨bump_request_map_name _ _, fun nm => healthy_of_bump _ _ nm,
      fun nm => error_count_of_bump _ _ nm,
      fun nm hne => find_service_bump_other _ hne⟩

/-- Invariant of the proxy retry loop: at most `fuel` send attempts; the
attempted instance names are pairwise distinct; the pool's name column is
preserved; instances unhealthy at entry are never attempted and never touched;
every failed attempt leaves its instance unhealthy with its error counter
incremented by exactly one; an all-failed run ends with the status of its last
error and only error attempts; a successful run ends with exactly one
request-counter bump of the chosen instance. -/
theorem proxy_retry_loop_invariant
    (send : Nat → String → SendResult) (rf : Option RoutingFields)
    (sid : Option String) (mid : Option String) (thr : Nat) :
    ∀ (fuel : Nat) (st : PoolState) (attempt : Nat)
      (log : List (String × SendResult)) (stF : PoolState) (out : ProxyOutcome),
      (st.services.map (fun s => s.name)).Nodup →
      proxy_retry_loop send rf sid mid thr st attempt fuel = (log, stF, out) →
      (log.length ≤ fuel ∧
       (log.map Prod.fst).Nodup ∧
       stF.services.map (fun s => s.name) = st.services.map (fun s => s.name) ∧
       (∀ nm, healthy_of st.services nm = some false →
         nm ∉ log.map Prod.fst ∧
         find_service stF.services nm = find_service st.services nm) ∧
       (∀ nm e, (nm, SendResult.err e) ∈ log →
         healthy_of stF.services nm = some false ∧
         error_count_of stF.services nm =
           (error_count_of st.services nm).map (fun c => c + 1)) ∧
       (∀ e, out = ProxyOutcome.failed e →
         (∃ nm, log.getLast? = some (nm, SendResult.err e)) ∧
         (∀ p ∈ log, ∃ e2, p.2 = SendResult.err e2)) ∧
       (∀ nm, out = ProxyOutcome.success nm →
         ∃ pre, stF.services = bump_request pre nm ∧
           request_count_of stF.services nm =
             (request_count_of pre nm).map (fun c => c + 1) ∧
           log.getLast? = some (nm, SendResult.ok))) := by
  intro fuel
  induction fuel with
  | zero =>
    intro st attempt log stF out hnodup hrun
    simp only [proxy_retry_loop] at hrun
    rcases hrun with ⟨rfl, rfl, rfl⟩
    refine ⟨by simp, by simp, rfl, fun nm _ => ⟨by simp, rfl⟩, ?_, ?_, ?_⟩
    · intro nm e hmem
      cases hmem
    · intro e he
      cases he
    · intro nm hs
      cases hs
  | succ fuel2 ih =>
    intro st attempt log stF out hnodup hrun
    simp only [proxy_retry_loop] at hrun
    rcases hsel : select_service st rf sid mid thr with ⟨choice, st1⟩
    rw [hsel] at hrun
    cases choice with
    | none =>
      replace hrun : (([], st1, ProxyOutcome.noService) :
          List (String × SendResult) × PoolState × ProxyOutcome) = (log, stF, out) := hrun
      rcases hrun with ⟨rfl, rfl, rfl⟩
      have hsv := select_service_none_services hsel
      refine ⟨by simp, by simp, by rw [hsv], fun nm _ => ⟨by simp, by rw [hsv]⟩,
        ?_, ?_, ?_⟩
      · intro nm e hmem
        cases hmem
      · intro e he
        cases he
      · intro nm hs
        cases hs
    | some s =>
      replace hrun : (match send attempt s.name with
          | SendResult.ok =>
            ([(s.name, SendResult.ok)],
              ({ services := bump_request st1.services s.name,
                 index := st1.index } : PoolState),
              ProxyOutcome.success s.name)
          | SendResult.err e =>
            if fuel2 = 0 then
              ([(s.name, SendResult.err e)],
                ({ services := mark_failure st1.services s.name,
                   index := st1.index } : PoolState),
                ProxyOutcome.failed e)
            else
              ((s.name, SendResult.err e) ::
                  (proxy_retry_loop send rf sid mid thr
                    ⟨mark_failure st1.services s.name, st1.index⟩ (attempt + 1) fuel2).1,
                (proxy_retry_loop send rf sid mid thr
                  ⟨mark_failure st1.services s.name, st1.index⟩ (attempt + 1) fuel2).2))
          = (log, stF, out) := hrun
      rcases select_service_sound hsel with ⟨hsmem, hshealthy, -⟩
      rcases select_service_some_state hsel with ⟨hnames1, hh1, he1, hfo1⟩
      have hfind_st_s : find_service st.services s.name = some s :=
        find_service_eq_of_mem hnodup hsmem
      have hhealthy_st_s : healthy_of st.services s.name = some true := by
        unfold healthy_of
        rw [hfind_st_s]
        simp [hshealthy]
      have hhealthy_st1_s : healthy_of st1.services s.name = some true := by
        rw [hh1]
        exact hhealthy_st_s
      have hunhealthy_ne : ∀ nm, healthy_of st.services nm = some false → nm ≠ s.name := by
        intro nm hnm hne
        rw [hne, hhealthy_st_s] at hnm
        cases hnm
      cases hsend : send attempt s.name with
      | ok =>
        rw [hsend] at hrun
        replace hrun : (([(s.name, SendResult.ok)],
            ({ services := bump_request st1.services s.name,
               index := st1.index } : PoolState),
            ProxyOutcome.success s.name) :
            List (String × SendResult) × PoolState × ProxyOutcome) = (log, stF, out) := hrun
        rcases hrun with ⟨rfl, rfl, rfl⟩
        refine ⟨by simp, by simp, ?_, ?_, ?_, ?_, ?_⟩
        · show (bump_request st1.services s.name).map _ = _
          rw [bump_request_map_name, hnames1]
        · intro nm hnm
          have hne := hunhealthy_ne nm hnm
          refine ⟨by simpa using hne, ?_⟩
          show find_service (bump_request st1.services s.name) nm = _
          rw [find_service_bump_other _ hne, hfo1 nm hne]
        · intro nm e hmem
          rcases List.mem_singleton.mp hmem with h2
          cases h2
        · intro e he
          cases he
        · intro nm hs
          cases hs
          refine ⟨st1.services, rfl, request_count_of_bump _ _, rfl⟩
      | err e =>
        rw [hsend] at hrun
        replace hrun : ((if fuel2 = 0 then
            ([(s.name, SendResult.err e)],
              ({ services := mark_failure st1.services s.name,
                 index := st1.index } : PoolState),
              ProxyOutcome.failed e)
          else
            ((s.name, SendResult.err e) ::
                (proxy_retry_loop send rf sid mid thr
                  ⟨mark_failure st1.services s.name, st1.index⟩ (attempt + 1) fuel2).1,
              (proxy_retry_loop send rf sid mid thr
                ⟨mark_failure st1.services s.name, st1.index⟩ (attempt + 1) fuel2).2)) :
            List (String × SendResult) × PoolState × ProxyOutcome) = (log, stF, out) := hrun
        have hhealthy_mark : healthy_of (mark_failure st1.services s.name) s.name
            = some false := by
          rw [healthy_of_mark, hhealthy_st1_s]
          rfl
        have herror_mark : error_count_of (mark_failure st1.services s.name) s.name
            = (error_count_of st.services s.name).map (fun c => c + 1) := by
          rw [error_count_of_mark, he1]
        have hnames_mark : (mark_failure st1.services s.name).map (fun t => t.name) =
            st.services.map (fun t => t.name) := by
          rw [mark_failure_map_name, hnames1]
        by_cases hf : fuel2 = 0
        · subst hf
          rw [if_pos rfl] at hrun
          rcases hrun with ⟨rfl, rfl, rfl⟩
          refine ⟨by simp, by simp, hnames_mark, ?_, ?_, ?_, ?_⟩
          · intro nm hnm
            have hne := hunhealthy_ne nm hnm
            refine ⟨by simpa using hne, ?_⟩
            show find_service (mark_failure st1.services s.name) nm = _
            rw [find_service_mark_other _ hne, hfo1 nm hne]
          · intro nm e2 hmem
            rcases List.mem_singleton.mp hmem with h2
            cases h2
            exact ⟨hhealthy_mark, herror_mark⟩
          · intro e2 he2
            cases he2
            exact ⟨⟨s.name, rfl⟩, fun p hp => by
              rcases List.mem_singleton.mp hp with h2
              cases h2
              exact ⟨e, rfl⟩⟩
          · intro nm hs
            cases hs
        · rw [if_neg hf] at hrun
          rcases hr2 : proxy_retry_loop send rf sid mid thr
              ⟨mark_failure st1.services s.name, st1.index⟩ (attempt + 1) fuel2
            with ⟨log2, stF2, out2⟩
          rw [hr2] at hrun
          have hlog : log = (s.name, SendResult.err e) :: log2 := by
            have h3 := congrArg
              (fun x : List (String × SendResult) × PoolState × ProxyOutcome => x.1) hrun
            simpa using h3.symm
          have hstF : stF = stF2 := by
            have h3 := congrArg
              (fun x : List (String × SendResult) × PoolState × ProxyOutcome => x.2.1) hrun
            simpa using h3.symm
          have hout : out = out2 := by
            have h3 := congrArg
              (fun x : List (String × SendResult) × PoolState × ProxyOutcome => x.2.2) hrun
            simpa using h3.symm
          rw [hlog, hstF, hout]
          have hnodup2 : ((⟨mark_failure st1.services s.name, st1.index⟩ :
              PoolState).services.map (fun s => s.name)).Nodup := by
            show ((mark_failure st1.services s.name).map _).Nodup
            rw [hnames_mark]
            exact hnodup
          rcases ih ⟨mark_failure st1.services s.name, st1.index⟩ (attempt + 1)
              log2 stF2 out2 hnodup2 hr2
            with ⟨ih1, ih2, ih3, ih4, ih5, ih6, ih7⟩
          have hsname_unhealthy2 : healthy_of (mark_failure st1.services s.name) s.name
              = some false := hhealthy_mark
          have hsnotin : s.name ∉ log2.map Prod.fst := (ih4 s.name hsname_unhealthy2).1
          have hsfind : find_service stF2.services s.name =
              find_service (mark_failure st1.services s.name) s.name :=
            (ih4 s.name hsname_unhealthy2).2
          refine ⟨by simpa using Nat.succ_le_succ ih1, ?_, ?_, ?_, ?_, ?_, ?_⟩
          · simp only [List.map_cons]
            exact List.nodup_cons.mpr ⟨hsnotin, ih2⟩
          · rw [ih3]
            exact hnames_mark
          · intro nm hnm
            have hne := hunhealthy_ne nm hnm
            have hnm2 : healthy_of (mark_failure st1.services s.name) nm = some false := by
              unfold healthy_of
              rw [find_service_mark_other _ hne, hfo1 nm hne]
              exact hnm
            refine ⟨?_, ?_⟩
            · simp only [List.map_cons, List.mem_cons]
              rintro (h2 | h2)
              · exact hne h2
              · exact (ih4 nm hnm2).1 h2
            · rw [(ih4 nm hnm2).2, find_service_mark_other _ hne, hfo1 nm hne]
          · intro nm e2 hmem
            rcases List.mem_cons.mp hmem with h2 | h2
            · cases h2
              refine ⟨?_, ?_⟩
              · unfold healthy_of
                rw [hsfind]
                exact hhealthy_mark
              · unfold error_count_of at herror_mark ⊢
                rw [hsfind]
                exact herror_mark
            · have hnm_in : nm ∈ log2.map Prod.fst :=
                List.mem_map_of_mem _ h2
              have hne : nm ≠ s.name := fun h3 => hsnotin (h3 ▸ hnm_in)
              rcases ih5 nm e2 h2 with ⟨ih5a, ih5b⟩
              refine ⟨ih5a, ?_⟩
              rw [ih5b]
              unfold error_count_of
              rw [find_service_mark_other _ hne, hfo1 nm hne]
          · intro e2 he2
            rcases ih6 e2 he2 with ⟨⟨nm2, hlast⟩, hall⟩
            have hlog2ne : log2 ≠ [] := by
              intro h0
              rw [h0] at hlast
              cases hlast
            refine ⟨⟨nm2, ?_⟩, ?_⟩
            · rcases log2 with _ | ⟨p, t⟩
              · exact absurd rfl hlog2ne
              · rw [List.getLast?_cons_cons]
                exact hlast
            · intro p hp
              rcases List.mem_cons.mp hp with h2 | h2
              · rw [h2]
                exact ⟨e, rfl⟩
              · exact hall p h2
          · intro nm hs2
            rcases ih7 nm hs2 with ⟨pre, ihp1, ihp2, ihp3⟩
            have hlog2ne : log2 ≠ [] := by
              intro h0
              rw [h0] at ihp3
              cases ihp3
            refine ⟨pre, ihp1, ihp2, ?_⟩
            rcases log2 with _ | ⟨p, t⟩
            · exact absurd rfl hlog2ne
            · rw [List.getLast?_cons_cons]
              exact ihp3

/-- C3: for every proxied request, at most 3 transport send attempts are made
and they hit pairwise-distinct instances; every transport failure marks the
attempted instance unhealthy and increments its `error_count` by exactly one
before selection is re-entered; if all attempts fail, the returned status is
the last failure's mapping — 504 for a timeout, 503 for connection refused,
502 otherwise; and a successful send increments the chosen instance's
`request_count` by exactly one. -/
theorem proxy_retry_policy
    (send : Nat → String → SendResult) (rf : Option RoutingFields)
    (sid : Option String) (mid : Option String) (thr : Nat) (st : PoolState)
    (log : List (String × SendResult)) (stF : PoolState) (out : ProxyOutcome)
    (hnodup : (st.services.map (fun s => s.name)).Nodup)
    (hrun : proxy_handler_attempts send rf sid mid thr st = (log, stF, out)) :
    MAX_RETRIES = 3 ∧
    log.length ≤ 3 ∧
    (log.map Prod.fst).Nodup ∧
    (∀ nm e, (nm, SendResult.err e) ∈ log →
      healthy_of stF.services nm = some false ∧
      error_count_of stF.services nm =
        (error_count_of st.services nm).map (fun c => c + 1)) ∧
    (∀ e, out = ProxyOutcome.failed e →
      proxy_status out = some (map_transport_error e) ∧
      (∃ nm, log.getLast? = some (nm, SendResult.err e)) ∧
      (∀ p ∈ log, ∃ e2, p.2 = SendResult.err e2)) ∧
    (map_transport_error TransportError.timeout = 504 ∧
      map_transport_error TransportError.connect = 503 ∧
      map_transport_error TransportError.other = 502) ∧
    (∀ nm, out = ProxyOutcome.success nm →
      ∃ pre, stF.services = bump_request pre nm ∧
        request_count_of stF.services nm =
          (request_count_of pre nm).map (fun c => c + 1)) := by
  rcases proxy_retry_loop_invariant send rf sid mid thr MAX_RETRIES st 0 log stF out
      hnodup hrun
    with ⟨h1, h2, -, -, h5, h6, h7⟩
  refine ⟨rfl, h1, h2, h5, ?_, ⟨rfl, rfl, rfl⟩, ?_⟩
  · intro e he
    rcases h6 e he with ⟨ha, hb⟩
    refine ⟨?_, ha, hb⟩
    rw [he]
    rfl
  · intro nm hs
    rcases h7 nm hs with ⟨pre, hp1, hp2, -⟩
    exact ⟨pre, hp1, hp2⟩

/-- Witness for C3: two healthy instances; the first attempt times out on
`a`, the second succeeds on `b`. -/
theorem proxy_retry_policy_witness :
    (([sampleInstance "a" 1, sampleInstance "b" 1].map (fun s => s.name)).Nodup) ∧
    (MAX_RETRIES = 3 ∧
     (proxy_handler_attempts
        (fun att _ => if att = 0 then SendResult.err TransportError.timeout
          else SendResult.ok)
        none none (some "m1") 51200
        ⟨[sampleInstance "a" 1, sampleInstance "b" 1], 0⟩).1.length ≤ 3 ∧
     ((proxy_handler_attempts
        (fun att _ => if att = 0 then SendResult.err TransportError.timeout
          else SendResult.ok)
        none none (some "m1") 51200
        ⟨[sampleInstance "a" 1, sampleInstance "b" 1], 0⟩).1.map Prod.fst).Nodup ∧
     (∀ nm e, (nm, SendResult.err e) ∈ (proxy_handler_attempts
        (fun att _ => if att = 0 then SendResult.err TransportError.timeout
          else SendResult.ok)
        none none (some "m1") 51200
        ⟨[sampleInstance "a" 1, sampleInstance "b" 1], 0⟩).1 →
       healthy_of (proxy_handler_attempts
          (fun att _ => if att = 0 then SendResult.err TransportError.timeout
            else SendResult.ok)
          none none (some "m1") 51200
          ⟨[sampleInstance "a" 1, sampleInstance "b" 1], 0⟩).2.1.services nm = some false ∧
       error_count_of (proxy_handler_attempts
          (fun att _ => if att = 0 then SendResult.err TransportError.timeout
            else SendResult.ok)
          none none (some "m1") 51200
          ⟨[sampleInstance "a" 1, sampleInstance "b" 1], 0⟩).2.1.services nm =
         (error_count_of [sampleInstance "a" 1, sampleInstance "b" 1] nm).map
           (fun c => c + 1)) ∧
     (∀ e, (proxy_handler_attempts
        (fun att _ => if att = 0 then SendResult.err TransportError.timeout
          else SendResult.ok)
        none none (some "m1") 51200
        ⟨[sampleInstance "a" 1, sampleInstance "b" 1], 0⟩).2.2 = ProxyOutcome.failed e →
       proxy_status (proxy_handler_attempts
          (fun att _ => if att = 0 then SendResult.err TransportError.timeout
            else SendResult.ok)
          none none (some "m1") 51200
          ⟨[sampleInstance "a" 1, sampleInstance "b" 1], 0⟩).2.2 =
         some (map_transport_error e) ∧
       (∃ nm, (proxy_handler_attempts
          (fun att _ => if att = 0 then SendResult.err TransportError.timeout
            else SendResult.ok)
          none none (some "m1") 51200
          ⟨[sampleInstance "a" 1, sampleInstance "b" 1], 0⟩).1.getLast? =
           some (nm, SendResult.err e)) ∧
       (∀ p ∈ (proxy_handler_attempts
          (fun att _ => if att = 0 then SendResult.err TransportError.timeout
            else SendResult.ok)
          none none (some "m1") 51200
          ⟨[sampleInstance "a" 1, sampleInstance "b" 1], 0⟩).1, ∃ e2,
            p.2 = SendResult.err e2)) ∧
     (map_transport_error TransportError.timeout = 504 ∧
       map_transport_error TransportError.connect = 503 ∧
       map_transport_error TransportError.other = 502) ∧
     (∀ nm, (proxy_handler_attempts
        (fun att _ => if att = 0 then SendResult.err TransportError.timeout
          else SendResult.ok)
        none none (some "m1") 51200
        ⟨[sampleInstance "a" 1, sampleInstance "b" 1], 0⟩).2.2 = ProxyOutcome.success nm →
       ∃ pre, (proxy_handler_attempts
          (fun att _ => if att = 0 then SendResult.err TransportError.timeout
            else SendResult.ok)
          none none (some "m1") 51200
          ⟨[sampleInstance "a" 1, sampleInstance "b" 1], 0⟩).2.1.services =
           bump_request pre nm ∧
         request_count_of (proxy_handler_attempts
            (fun att _ => if att = 0 then SendResult.err TransportError.timeout
              else SendResult.ok)
            none none (some "m1") 51200
            ⟨[sampleInstance "a" 1, sampleInstance "b" 1], 0⟩).2.1.services nm =
           (request_count_of pre nm).map (fun c => c + 1))) :=
  ⟨by decide,
    proxy_retry_policy
      (fun att _ => if att = 0 then SendResult.err TransportError.timeout
        else SendResult.ok)
      none none (some "m1") 51200
      ⟨[sampleInstance "a" 1, sampleInstance "b" 1], 0⟩
      (proxy_handler_attempts
        (fun att _ => if att = 0 then SendResult.err TransportError.timeout
          else SendResult.ok)
        none none (some "m1") 51200
        ⟨[sampleInstance "a" 1, sampleInstance "b" 1], 0⟩).1
      (proxy_handler_attempts
        (fun att _ => if att = 0 then SendResult.err TransportError.timeout
          else SendResult.ok)
        none none (some "m1") 51200
        ⟨[sampleInstance "a" 1, sampleInstance "b" 1], 0⟩).2.1
      (proxy_handler_attempts
        (fun att _ => if att = 0 then SendResult.err TransportError.timeout
          else SendResult.ok)
        none none (some "m1") 51200
        ⟨[sampleInstance "a" 1, sampleInstance "b" 1], 0⟩).2.2
      (by decide) rfl⟩

end InfiniSVC
